import Mathlib

/-!
# Shortest_Path_Finder: the grid model and the Dijkstra run of `Application.cpp`

A shallow embedding of the non-GUI part of `main` in `src/Application.cpp`:

* the cell states and placement modes (lines 18-20),
* the run block (lines 81-126): the `neighbors` lambda, the clearing of the
  transient marks, the frontier loop and the backward walk over `prev`,
* the grid edits (lines 63-78 and 148-171) and one iteration of the frame loop.

Conventions.  `int` values that the code keeps non-negative (cell indices inside
the run block, distances, the side `N`) are natural numbers; `startIdx`,
`endIdx`, `prev[]` and `cur`, which use `-1` as "unset", are integers.  No
arithmetic wraps as long as `N * N` fits an `int`, which the theorems about
the run assume (`N * N ≤ INF`).  The `std::vector`s are lists; an index outside
the vector (undefined behaviour in C++, never reached from a well-formed state)
reads a default and writes nothing.  The two `while` loops take a fuel argument
and return `none` when it runs out.
-/

namespace ShortestPathFinder

/-! ## Data model -/

/-- Line 18: `enum CellState`. -/
inductive CellState
  | EMPTY | OBSTACLE | START | END | VISITED | PATH
  deriving DecidableEq, Repr

/-- Line 20: `enum PlacementMode`. -/
inductive PlacementMode
  | MODE_OBSTACLE | MODE_START | MODE_END | MODE_ERASE
  deriving DecidableEq, Repr

open CellState PlacementMode

/-- Line 15. -/
def DEFAULT_GRID_SIZE : Int := 20

/-- Line 83: `std::numeric_limits<int>::max()` for a 32-bit `int`. -/
def INF : Nat := 2147483647

/-! ## The run block (lines 81-126) -/

/-- Lines 90-99: the in-bounds cells among up, down, left, right of `idx`, in
that order.  `idx / N` and `idx % N` are taken on naturals (`idx ≥ 0`, `N > 0`),
the offsets are added on integers as in the source. -/
def neighbors (N : Nat) (idx : Nat) : List Nat :=
  let r : Int := ((idx / N : Nat) : Int)
  let c : Int := ((idx % N : Nat) : Int)
  ([(-1, 0), (1, 0), (0, -1), (0, 1)] : List (Int × Int)).filterMap fun d =>
    let nr := r + d.1
    let nc := c + d.2
    if nr ≥ 0 ∧ nr < N ∧ nc ≥ 0 ∧ nc < N then some (nr * N + nc).toNat else none

/-- Line 102: the body of the clearing loop, on one cell. -/
def clearCell (cs : CellState) : CellState :=
  if cs = VISITED ∨ cs = PATH then EMPTY else cs

/-- Line 102: `for (auto& cs : grid) if (cs == VISITED || cs == PATH) cs = EMPTY;`. -/
def clearTransient (grid : List CellState) : List CellState :=
  grid.map clearCell

/-- The order of `std::pair<int,int>` used by `std::greater<Node>` (line 86):
lexicographic `≤`. -/
def nodeLe (a b : Nat × Nat) : Bool :=
  decide (a.1 < b.1) || (decide (a.1 = b.1) && decide (a.2 ≤ b.2))

/-- `pq.push(x)` (lines 88, 114).  The priority queue is the list of its
entries in ascending order, so that `pq.top()` is the head and `pq.pop()`
drops it. -/
def pqPush (x : Nat × Nat) : List (Nat × Nat) → List (Nat × Nat)
  | [] => [x]
  | y :: ys => if nodeLe x y then x :: y :: ys else y :: pqPush x ys

/-- What one iteration of the frontier loop did with the entry it extracted:
skipped it as stale (line 106), stopped on it (line 107), or relaxed the
neighbours of its node (lines 108-117). -/
inductive Event
  | stale (u : Nat)
  | goal (u : Nat)
  | expand (u : Nat)
  deriving DecidableEq, Repr

/-- The variables of the frontier loop: `grid`, `dist`, `prev`, `pq`; and two
logs that no statement of the program reads: `pushed`, the nodes given to
`pq.push` so far (lines 88 and 114), and `trace`, one event for each entry
extracted so far (line 105). -/
structure Search where
  grid : List CellState
  dist : List Nat
  prev : List Int
  pq : List (Nat × Nat)
  pushed : List Nat
  trace : List Event
  deriving DecidableEq, Repr

/-- Lines 109-116: the body of `for (int v : neighbors(u))`. -/
def relax (endIdx d u : Nat) (s : Search) (v : Nat) : Search :=
  if s.grid.getD v EMPTY = OBSTACLE ∨ s.grid.getD v EMPTY = START then s
  else
    let nd := d + 1
    if nd < s.dist.getD v INF then
      { s with
        dist := s.dist.set v nd
        prev := s.prev.set v (u : Int)
        pq := pqPush (nd, v) s.pq
        pushed := s.pushed ++ [v]
        grid := if v ≠ endIdx then s.grid.set v VISITED else s.grid }
    else s

/-- Lines 104-118: `while (!pq.empty())`, at most `fuel` evaluations of its
condition. -/
def searchLoop (N endIdx : Nat) : Nat → Search → Option Search
  | 0, _ => none
  | fuel + 1, s =>
    match s.pq with
    | [] => some s
    | (d, u) :: rest =>
      if d > s.dist.getD u INF then
        searchLoop N endIdx fuel { s with pq := rest, trace := s.trace ++ [Event.stale u] }
      else if u = endIdx then
        some { s with pq := rest, trace := s.trace ++ [Event.goal u] }
      else
        searchLoop N endIdx fuel
          ((neighbors N u).foldl (relax endIdx d u)
            { s with pq := rest, trace := s.trace ++ [Event.expand u] })

/-- Lines 84-88 and 102: the state in which the frontier loop is entered. -/
def initSearch (N : Nat) (grid : List CellState) (startIdx : Nat) : Search :=
  { grid := clearTransient grid
    dist := (List.replicate (N * N) INF).set startIdx 0
    prev := List.replicate (N * N) (-1)
    pq := [(0, startIdx)]
    pushed := [startIdx]
    trace := [] }

/-- Lines 84-118: the run up to the end of the frontier loop. -/
def search (N : Nat) (grid : List CellState) (startIdx endIdx : Nat) : Option Search :=
  searchLoop N endIdx (N * N + 1) (initSearch N grid startIdx)

/-- Lines 121-124: `while (cur >= 0 && prev[cur] != -1)`, at most `fuel`
evaluations of its condition; returns the final `cur` and `grid`. -/
def walkBack (prev : List Int) (startIdx : Int) :
    Nat → Int → List CellState → Option (Int × List CellState)
  | 0, _, _ => none
  | fuel + 1, cur, grid =>
    if cur ≥ 0 ∧ prev.getD cur.toNat (-1) ≠ -1 then
      let cur1 := prev.getD cur.toNat (-1)
      walkBack prev startIdx fuel cur1
        (if cur1 ≠ startIdx then grid.set cur1.toNat PATH else grid)
    else some (cur, grid)

/-- Lines 82-124: the whole run on the cell array, for `startIdx, endIdx ≥ 0`. -/
def engine (N : Nat) (grid : List CellState) (startIdx endIdx : Nat) :
    Option (List CellState) :=
  match search N grid startIdx endIdx with
  | none => none
  | some s =>
    match walkBack s.prev (startIdx : Int) (N * N + 1) (endIdx : Int) s.grid with
    | none => none
    | some r => some r.2

/-! ## The session state and its edits -/

/-- The variables of `main` that outlive a frame (lines 38-44 and 73). -/
structure AppState where
  gridSize : Int
  grid : List CellState
  startIdx : Int
  endIdx : Int
  runDijkstra : Bool
  mode : PlacementMode
  prevSize : Int
  deriving DecidableEq, Repr

/-- Lines 38-44, 73: the state before the first frame. -/
def initialState : AppState :=
  { gridSize := DEFAULT_GRID_SIZE
    grid := List.replicate (DEFAULT_GRID_SIZE * DEFAULT_GRID_SIZE).toNat EMPTY
    startIdx := -1
    endIdx := -1
    runDijkstra := false
    mode := MODE_OBSTACLE
    prevSize := DEFAULT_GRID_SIZE }

/-- Lines 64-65 (and 75-76): `grid.assign(gridSize * gridSize, EMPTY); startIdx = endIdx = -1;`. -/
def resetGrid (s : AppState) : AppState :=
  { s with
    grid := List.replicate (s.gridSize * s.gridSize).toNat EMPTY
    startIdx := -1
    endIdx := -1 }

/-- Lines 74-78: the reallocation when the slider value differs from `prevSize`. -/
def resizeCheck (s : AppState) : AppState :=
  if s.prevSize ≠ s.gridSize then { resetGrid s with prevSize := s.gridSize } else s

/-- Lines 81-126: the gated run. -/
def engineBlock (s : AppState) : Option AppState :=
  if s.runDijkstra = true ∧ s.startIdx ≥ 0 ∧ s.endIdx ≥ 0 then
    match engine s.gridSize.toNat s.grid s.startIdx.toNat s.endIdx.toNat with
    | none => none
    | some g => some { s with grid := g, runDijkstra := false }
  else some s

/-- Lines 148-171: the `switch (mode)` on a clicked cell `idx`. -/
def click (s : AppState) (idx : Int) : AppState :=
  match s.mode with
  | MODE_OBSTACLE =>
    if idx ≠ s.startIdx ∧ idx ≠ s.endIdx then
      { s with
        grid := s.grid.set idx.toNat
          (if s.grid.getD idx.toNat EMPTY = OBSTACLE then EMPTY else OBSTACLE) }
    else s
  | MODE_START =>
    if idx ≠ s.endIdx then
      let g := if s.startIdx ≥ 0 then s.grid.set s.startIdx.toNat EMPTY else s.grid
      { s with grid := g.set idx.toNat START, startIdx := idx }
    else s
  | MODE_END =>
    if idx ≠ s.startIdx then
      let g := if s.endIdx ≥ 0 then s.grid.set s.endIdx.toNat EMPTY else s.grid
      { s with grid := g.set idx.toNat END, endIdx := idx }
    else s
  | MODE_ERASE =>
    let s1 := if idx = s.startIdx then { s with startIdx := -1 } else s
    let s2 := if idx = s1.endIdx then { s1 with endIdx := -1 } else s1
    { s2 with grid := s2.grid.set idx.toNat EMPTY }

/-- What the GUI collaborator reports in one frame: the radio button chosen
(lines 56-59), the slider value if moved (line 62), the two buttons (lines 63,
67), and the row and column of a click inside the canvas (lines 142-146). -/
structure FrameInput where
  modeSel : Option PlacementMode
  slider : Option Int
  resetPressed : Bool
  runPressed : Bool
  clicked : Option (Int × Int)
  deriving DecidableEq, Repr

/-- Lines 56-59: the radio buttons. -/
def selectMode (s : AppState) (m : Option PlacementMode) : AppState :=
  match m with
  | some m => { s with mode := m }
  | none => s

/-- Line 62: the slider writes `gridSize`. -/
def moveSlider (s : AppState) (n : Option Int) : AppState :=
  match n with
  | some n => { s with gridSize := n }
  | none => s

/-- Line 62 followed by lines 73-78: the slider is moved to `n` and the resize
check runs. -/
def resize (s : AppState) (n : Int) : AppState :=
  resizeCheck (moveSlider s (some n))

/-- Lines 63-66: the `Reset Grid` button. -/
def pressReset (s : AppState) (pressed : Bool) : AppState :=
  if pressed = true then resetGrid s else s

/-- Lines 67-69: the `Run Dijkstra` button. -/
def pressRun (s : AppState) (pressed : Bool) : AppState :=
  if pressed = true then { s with runDijkstra := true } else s

/-- Lines 51-78: the controls window followed by the resize check. -/
def controls (s : AppState) (i : FrameInput) : AppState :=
  resizeCheck
    (pressRun (pressReset (moveSlider (selectMode s i.modeSel) i.slider) i.resetPressed)
      i.runPressed)

/-- Lines 46-200: one iteration of the frame loop on the session state. -/
def frame (s : AppState) (i : FrameInput) : Option AppState :=
  match engineBlock (controls s i) with
  | none => none
  | some s6 =>
    match i.clicked with
    | none => some s6
    | some rc => some (click s6 (rc.1 * s6.gridSize + rc.2))

/-- The frame loop over a list of frames. -/
def frames (s : AppState) : List FrameInput → Option AppState
  | [] => some s
  | i :: is =>
    match frame s i with
    | none => none
    | some s1 => frames s1 is

/-! ## Specification vocabulary for the run -/

/-- A cell the frontier loop may enter (line 109): neither `OBSTACLE` nor
`START` in the cleared grid `g0`. -/
def passable (g0 : List CellState) (v : Nat) : Prop :=
  g0.getD v EMPTY ≠ OBSTACLE ∧ g0.getD v EMPTY ≠ START

/-- Every passable neighbour of `u` has a distance, at most one more than
that of `u`. -/
def Closed (N : Nat) (g0 : List CellState) (s : Search) (u : Nat) : Prop :=
  ∀ v ∈ neighbors N u, passable g0 v →
    s.dist.getD v INF ≠ INF ∧ s.dist.getD v INF ≤ s.dist.getD u INF + 1

/-- The invariant of the frontier loop for a run on the cleared grid `g0` from
`st` to `en`.  `L` is the distance of the entry extracted last, `x` the node
whose neighbours are being relaxed (`en` between iterations). -/
structure SInv (N : Nat) (g0 : List CellState) (st en x L : Nat) (s : Search) : Prop where
  glen : s.grid.length = N * N
  dlen : s.dist.length = N * N
  plen : s.prev.length = N * N
  pq_sorted : s.pq.Pairwise (fun a b => a.1 ≤ b.1)
  pq_mem : ∀ a ∈ s.pq, a.2 < N * N ∧ s.dist.getD a.2 INF = a.1 ∧ a.1 ≠ INF ∧ L ≤ a.1 ∧ a.1 ≤ L + 1
  dist_le : ∀ v, v < N * N → s.dist.getD v INF ≠ INF → s.dist.getD v INF ≤ L + 1
  pushed_iff : ∀ v, v ∈ s.pushed ↔ v < N * N ∧ s.dist.getD v INF ≠ INF
  pushed_nodup : s.pushed.Nodup
  cnt : s.dist.count INF + s.pushed.length = N * N
  bound : ∀ v, v < N * N → s.dist.getD v INF ≠ INF → s.dist.getD v INF < s.pushed.length
  measure : s.pushed.length = s.pq.length + s.trace.length
  dist_start : s.dist.getD st INF = 0
  prev_start : s.prev.getD st (-1) = -1
  tree : ∀ v, v < N * N → v ≠ st → s.dist.getD v INF ≠ INF →
    ∃ u, u < N * N ∧ s.prev.getD v (-1) = (u : Int) ∧ u ≠ en ∧ s.dist.getD u INF ≠ INF ∧
      s.dist.getD v INF = s.dist.getD u INF + 1 ∧ v ∈ neighbors N u ∧ passable g0 v
  fresh : ∀ v, v < N * N → s.dist.getD v INF = INF → s.prev.getD v (-1) = -1
  marks : ∀ v, v < N * N → s.grid.getD v EMPTY =
    if s.dist.getD v INF ≠ INF ∧ v ≠ st ∧ v ≠ en then VISITED else g0.getD v EMPTY
  closed : ∀ u, u < N * N → s.dist.getD u INF ≠ INF → u ≠ en → u ≠ x →
    (∃ a ∈ s.pq, a.2 = u) ∨ Closed N g0 s u
  trace_ok : ∀ ev ∈ s.trace, ev = Event.goal en ∨
    ∃ u, ev = Event.expand u ∧ u ≠ en ∧ u ∈ s.pushed

/-- The run's precondition on the cell array: `N * N` cells, distinct in-range
`st` and `en`, the `START` cell is exactly `st` and the `END` cell exactly `en`. -/
def WellFormed (N : Nat) (g : List CellState) (st en : Nat) : Prop :=
  g.length = N * N ∧ st < N * N ∧ en < N * N ∧ st ≠ en ∧
  (∀ i, i < N * N → (g.getD i EMPTY = START ↔ i = st)) ∧
  (∀ i, i < N * N → (g.getD i EMPTY = END ↔ i = en))

instance (N : Nat) (g : List CellState) (st en : Nat) : Decidable (WellFormed N g st en) :=
  inferInstanceAs (Decidable (_ ∧ _))

/-- Cells `u` and `v` of the row-major `N`-wide grid are 4-adjacent: same row
and columns one apart, or same column and rows one apart. -/
def Adj4 (N u v : Nat) : Prop :=
  (u / N = v / N ∧ (u % N + 1 = v % N ∨ v % N + 1 = u % N)) ∨
  (u % N = v % N ∧ (u / N + 1 = v / N ∨ v / N + 1 = u / N))

instance (N u v : Nat) : Decidable (Adj4 N u v) :=
  inferInstanceAs (Decidable (_ ∨ _))

/-- Deciding that consecutive cells of `a :: l` are 4-adjacent, cell by cell. -/
def decChain4 (N : Nat) : (a : Nat) → (l : List Nat) → Decidable (List.Chain (Adj4 N) a l)
  | _, [] => isTrue List.Chain.nil
  | a, b :: l =>
    match (inferInstance : Decidable (Adj4 N a b)), decChain4 N b l with
    | isTrue h1, isTrue h2 => isTrue (List.Chain.cons h1 h2)
    | isFalse h1, _ => isFalse (fun h => h1 (List.chain_cons.mp h).1)
    | isTrue _, isFalse h2 => isFalse (fun h => h2 (List.chain_cons.mp h).2)

instance (N : Nat) (p : List Nat) : Decidable (List.Chain' (Adj4 N) p) :=
  match p with
  | [] => isTrue trivial
  | a :: l => decChain4 N a l

/-- The list `p` is a walk in the grid: consecutive cells are 4-adjacent and
every cell is in range and not an `OBSTACLE`. -/
def IsWalk (N : Nat) (g : List CellState) (p : List Nat) : Prop :=
  List.Chain' (Adj4 N) p ∧ ∀ v ∈ p, v < N * N ∧ g.getD v EMPTY ≠ OBSTACLE

instance (N : Nat) (g : List CellState) (p : List Nat) : Decidable (IsWalk N g p) :=
  inferInstanceAs (Decidable (_ ∧ _))

/-- The walk `p` starts at `a` and ends at `b`; it has `p.length - 1` hops. -/
def WalkFromTo (N : Nat) (g : List CellState) (a b : Nat) (p : List Nat) : Prop :=
  IsWalk N g p ∧ p.head? = some a ∧ p.getLast? = some b

instance (N : Nat) (g : List CellState) (a b : Nat) (p : List Nat) :
    Decidable (WalkFromTo N g a b p) :=
  inferInstanceAs (Decidable (_ ∧ _))

/-- Cell `b` can be reached from `a` through 4-adjacent non-`OBSTACLE` cells. -/
def Reachable (N : Nat) (g : List CellState) (a b : Nat) : Prop :=
  ∃ p, WalkFromTo N g a b p

/-- The distance `|a - b|` on naturals. -/
def absDiff (a b : Nat) : Nat := if a ≤ b then b - a else a - b

/-! ## Specification vocabulary for the session state -/

/-- Grid well-formedness of the session state for side `N`: the cell array has
`N * N` cells; `startIdx` and `endIdx` are `-1` or in range; a cell is `START`
exactly at `startIdx` and `END` exactly at `endIdx`; and the two indices differ
when both are set. -/
def Inv (N : Nat) (s : AppState) : Prop :=
  s.gridSize = (N : Int) ∧ s.grid.length = N * N ∧
  (s.startIdx = -1 ∨ (0 ≤ s.startIdx ∧ s.startIdx < ((N * N : Nat) : Int))) ∧
  (s.endIdx = -1 ∨ (0 ≤ s.endIdx ∧ s.endIdx < ((N * N : Nat) : Int))) ∧
  (∀ i, i < N * N → (s.grid.getD i EMPTY = START ↔ (i : Int) = s.startIdx)) ∧
  (∀ i, i < N * N → (s.grid.getD i EMPTY = END ↔ (i : Int) = s.endIdx)) ∧
  (0 ≤ s.startIdx → 0 ≤ s.endIdx → s.startIdx ≠ s.endIdx)

instance (N : Nat) (s : AppState) : Decidable (Inv N s) :=
  inferInstanceAs (Decidable (_ ∧ _))

/-- The values the GUI collaborator can report in a frame entered with the
state `s`: the slider stays within its bounds 5 and 50 (line 62), and a click
inside the canvas has its row and column below the side in force when the
click is handled (lines 144-147). -/
def InputOk (s : AppState) (i : FrameInput) : Prop :=
  (∀ n, i.slider = some n → 5 ≤ n ∧ n ≤ 50) ∧
  (∀ rc, i.clicked = some rc →
    0 ≤ rc.1 ∧ rc.1 < (i.slider.getD s.gridSize) ∧ 0 ≤ rc.2 ∧ rc.2 < (i.slider.getD s.gridSize))

/-- The invariant at frame boundaries: `Inv`, the slider range, and `prevSize`
tracking `gridSize`. -/
def FrameInv (N : Nat) (s : AppState) : Prop :=
  Inv N s ∧ 5 ≤ N ∧ N ≤ 50 ∧ s.prevSize = s.gridSize

/-! ## Example inputs -/

/-- The 5×5 grid without obstacles, Start at (0,0) and End at (4,4). -/
def grid5 : List CellState :=
  ((List.replicate 25 EMPTY).set 0 START).set 24 END

/-- The 3×3 grid without obstacles, Start at (0,0) and End next to it at (0,1). -/
def grid3 : List CellState :=
  ((List.replicate 9 EMPTY).set 0 START).set 1 END

/-- The 3×3 grid whose middle row is a wall, Start at (0,0) and End at (2,2). -/
def gridWall : List CellState :=
  [START, EMPTY, EMPTY, OBSTACLE, OBSTACLE, OBSTACLE, EMPTY, EMPTY, END]

/-- A session on `grid5` with a run requested. -/
def session5 : AppState :=
  { gridSize := 5
    grid := grid5
    startIdx := 0
    endIdx := 24
    runDijkstra := true
    mode := MODE_OBSTACLE
    prevSize := 5 }

/-- A frame in which nothing happens. -/
def idleFrame : FrameInput :=
  { modeSel := none, slider := none, resetPressed := false, runPressed := false, clicked := none }

/-- Six frames from the initial state: choose Start mode, click (0,0), press
`Run Dijkstra` (End is unset), choose End mode, click (0,1), and one idle frame. -/
def lateEndFrames : List FrameInput :=
  [ { idleFrame with modeSel := some MODE_START },
    { idleFrame with clicked := some (0, 0) },
    { idleFrame with runPressed := true },
    { idleFrame with modeSel := some MODE_END },
    { idleFrame with clicked := some (0, 1) },
    idleFrame ]

/-! ## Lists as vectors -/

theorem getD_set_self {α : Type} (l : List α) (i : Nat) (a d : α) (h : i < l.length) :
    (l.set i a).getD i d = a := by
  simp [List.getD_eq_getElem?_getD, List.getElem?_set, h]

theorem getD_set_other {α : Type} (l : List α) (i j : Nat) (a d : α) (h : i ≠ j) :
    (l.set i a).getD j d = l.getD j d := by
  simp [List.getD_eq_getElem?_getD, List.getElem?_set, h]

theorem getD_replicate_lt {α : Type} (n i : Nat) (a d : α) (h : i < n) :
    (List.replicate n a).getD i d = a := by
  simp [List.getD_eq_getElem?_getD, List.getElem?_replicate, h]

theorem getD_eq_getElem_of_lt {α : Type} (l : List α) (i : Nat) (d : α) (h : i < l.length) :
    l.getD i d = l[i] := by
  simp [List.getD_eq_getElem?_getD, List.getElem?_eq_getElem h]

theorem getD_mem {α : Type} (l : List α) (i : Nat) (d : α) (h : i < l.length) :
    l.getD i d ∈ l := by
  rw [getD_eq_getElem_of_lt l i d h]
  exact List.getElem_mem h

theorem count_set_fresh {α : Type} [DecidableEq α] (l : List α) (i : Nat) (x y d : α)
    (h : i < l.length) (hx : l.getD i d = x) (hy : y ≠ x) :
    (l.set i y).count x + 1 = l.count x := by
  have hmem : x ∈ l := hx ▸ getD_mem l i d h
  have hpos : 0 < l.count x := List.count_pos_iff.mpr hmem
  rw [getD_eq_getElem_of_lt l i d h] at hx
  rw [List.count_set _ _ _ _ h]
  simp [hx, hy]
  omega

theorem count_set_new {α : Type} [DecidableEq α] (l : List α) (i : Nat) (x d : α)
    (h : i < l.length) (hx : l.getD i d ≠ x) :
    (l.set i x).count x = l.count x + 1 := by
  rw [getD_eq_getElem_of_lt l i d h] at hx
  rw [List.count_set _ _ _ _ h]
  simp [hx]

theorem count_pos_of_getD {α : Type} [DecidableEq α] (l : List α) (i : Nat) (x d : α)
    (h : i < l.length) (hx : l.getD i d = x) : 0 < l.count x :=
  List.count_pos_iff.mpr (hx ▸ getD_mem l i d h)

/-! ## The frontier -/

theorem mem_pqPush (x a : Nat × Nat) (l : List (Nat × Nat)) :
    a ∈ pqPush x l ↔ a = x ∨ a ∈ l := by
  induction l with
  | nil => simp [pqPush]
  | cons y ys ih =>
    unfold pqPush
    split
    · simp
    · simp [ih]
      tauto

theorem length_pqPush (x : Nat × Nat) (l : List (Nat × Nat)) :
    (pqPush x l).length = l.length + 1 := by
  induction l with
  | nil => simp [pqPush]
  | cons y ys ih =>
    unfold pqPush
    split
    · simp
    · simp [ih]

theorem nodeLe_fst {a b : Nat × Nat} (h : nodeLe a b = true) : a.1 ≤ b.1 := by
  unfold nodeLe at h
  simp at h
  omega

theorem not_nodeLe_fst {a b : Nat × Nat} (h : ¬ nodeLe a b = true) : b.1 ≤ a.1 := by
  unfold nodeLe at h
  simp at h
  omega

theorem pairwise_pqPush (x : Nat × Nat) (l : List (Nat × Nat))
    (h : l.Pairwise (fun a b => a.1 ≤ b.1)) :
    (pqPush x l).Pairwise (fun a b => a.1 ≤ b.1) := by
  induction l with
  | nil => simp [pqPush]
  | cons y ys ih =>
    rw [List.pairwise_cons] at h
    unfold pqPush
    split
    · rename_i hle
      have hxy := nodeLe_fst hle
      rw [List.pairwise_cons]
      refine ⟨?_, List.pairwise_cons.mpr h⟩
      intro a ha
      rcases List.mem_cons.mp ha with rfl | ha
      · exact hxy
      · exact le_trans hxy (h.1 a ha)
    · rename_i hle
      have hyx := not_nodeLe_fst hle
      rw [List.pairwise_cons]
      refine ⟨?_, ih h.2⟩
      intro a ha
      rcases (mem_pqPush x a ys).mp ha with rfl | ha
      · exact hyx
      · exact h.1 a ha

theorem toNat_cell (r c N : Nat) (a b : Int) (k : Nat) (ha : (r : Int) + a = (k : Int)) (l : Nat)
    (hb : (c : Int) + b = (l : Int)) :
    (((r : Int) + a) * (N : Int) + ((c : Int) + b)).toNat = k * N + l := by
  rw [ha, hb]
  have : ((k : Int) * (N : Int) + (l : Int)) = ((k * N + l : Nat) : Int) := by push_cast; ring
  rw [this]
  exact Int.toNat_natCast _

theorem mem_neighbors_iff (N u v : Nat) :
    v ∈ neighbors N u ↔
      (1 ≤ u / N ∧ u / N ≤ N ∧ u % N < N ∧ v = (u / N - 1) * N + u % N) ∨
      (u / N + 1 < N ∧ u % N < N ∧ v = (u / N + 1) * N + u % N) ∨
      (u / N < N ∧ 1 ≤ u % N ∧ u % N ≤ N ∧ v = u / N * N + (u % N - 1)) ∨
      (u / N < N ∧ u % N + 1 < N ∧ v = u / N * N + (u % N + 1)) := by
  unfold neighbors
  generalize u / N = r
  generalize u % N = c
  simp only [List.mem_filterMap, List.mem_cons, List.mem_singleton, List.not_mem_nil, or_false]
  constructor
  · rintro ⟨d, hd, h⟩
    rcases hd with rfl | rfl | rfl | rfl
    · simp only at h
      split at h
      · rename_i hc
        injection h with h
        left
        refine ⟨by omega, by omega, by omega, ?_⟩
        rw [← h]
        exact toNat_cell r c N (-1) 0 (r - 1) (by omega) c (by omega)
      · cases h
    · simp only at h
      split at h
      · rename_i hc
        injection h with h
        right; left
        refine ⟨by omega, by omega, ?_⟩
        rw [← h]
        exact toNat_cell r c N 1 0 (r + 1) (by omega) c (by omega)
      · cases h
    · simp only at h
      split at h
      · rename_i hc
        injection h with h
        right; right; left
        refine ⟨by omega, by omega, by omega, ?_⟩
        rw [← h]
        exact toNat_cell r c N 0 (-1) r (by omega) (c - 1) (by omega)
      · cases h
    · simp only at h
      split at h
      · rename_i hc
        injection h with h
        right; right; right
        refine ⟨by omega, by omega, ?_⟩
        rw [← h]
        exact toNat_cell r c N 0 1 r (by omega) (c + 1) (by omega)
      · cases h
  · rintro (⟨h1, h2, h3, rfl⟩ | ⟨h1, h2, rfl⟩ | ⟨h1, h2, h3, rfl⟩ | ⟨h1, h2, rfl⟩)
    · refine ⟨(-1, 0), by simp, ?_⟩
      simp only
      rw [if_pos (by omega)]
      rw [toNat_cell r c N (-1) 0 (r - 1) (by omega) c (by omega)]
    · refine ⟨(1, 0), by simp, ?_⟩
      simp only
      rw [if_pos (by omega)]
      rw [toNat_cell r c N 1 0 (r + 1) (by omega) c (by omega)]
    · refine ⟨(0, -1), by simp, ?_⟩
      simp only
      rw [if_pos (by omega)]
      rw [toNat_cell r c N 0 (-1) r (by omega) (c - 1) (by omega)]
    · refine ⟨(0, 1), by simp, ?_⟩
      simp only
      rw [if_pos (by omega)]
      rw [toNat_cell r c N 0 1 r (by omega) (c + 1) (by omega)]

theorem cell_div_mod (k c N : Nat) (hc : c < N) : (k * N + c) / N = k ∧ (k * N + c) % N = c := by
  have hN : 0 < N := by omega
  constructor
  · rw [Nat.add_comm, Nat.add_mul_div_right _ _ hN, Nat.div_eq_of_lt hc]
    omega
  · rw [Nat.add_comm, Nat.add_mul_mod_self_right, Nat.mod_eq_of_lt hc]

theorem cell_lt (k c N : Nat) (hk : k < N) (hc : c < N) : k * N + c < N * N := by
  have h1 : (k + 1) * N ≤ N * N := Nat.mul_le_mul_right N hk
  have h2 : (k + 1) * N = k * N + N := by ring
  omega

theorem div_lt_side (v N : Nat) (h : v < N * N) : v / N < N :=
  Nat.div_lt_of_lt_mul h

theorem cell_decomp (v N : Nat) : v = v / N * N + v % N := by
  have := Nat.div_add_mod v N
  rw [Nat.mul_comm] at this
  omega

theorem neighbors_lt (N u v : Nat) (h : v ∈ neighbors N u) : v < N * N := by
  rcases (mem_neighbors_iff N u v).mp h with
    ⟨h1, h2, h3, rfl⟩ | ⟨h1, h2, rfl⟩ | ⟨h1, h2, h3, rfl⟩ | ⟨h1, h2, rfl⟩
  · exact cell_lt _ _ _ (by omega) h3
  · exact cell_lt _ _ _ h1 h2
  · exact cell_lt _ _ _ h1 (by omega)
  · exact cell_lt _ _ _ h1 h2

theorem neighbors_coord (N u v : Nat) (hu : u < N * N) :
    v ∈ neighbors N u ↔
      v < N * N ∧
      ((v / N + 1 = u / N ∧ v % N = u % N) ∨ (v / N = u / N + 1 ∧ v % N = u % N) ∨
       (v / N = u / N ∧ v % N + 1 = u % N) ∨ (v / N = u / N ∧ v % N = u % N + 1)) := by
  have hN : 0 < N := by
    rcases Nat.eq_zero_or_pos N with h | h
    · subst h; simp at hu
    · exact h
  have hr : u / N < N := div_lt_side u N hu
  have hc : u % N < N := Nat.mod_lt _ hN
  constructor
  · intro h
    refine ⟨neighbors_lt N u v h, ?_⟩
    rcases (mem_neighbors_iff N u v).mp h with
      ⟨h1, h2, h3, rfl⟩ | ⟨h1, h2, rfl⟩ | ⟨h1, h2, h3, rfl⟩ | ⟨h1, h2, rfl⟩
    · have := cell_div_mod (u / N - 1) (u % N) N h3
      left; omega
    · have := cell_div_mod (u / N + 1) (u % N) N h2
      right; left; omega
    · have := cell_div_mod (u / N) (u % N - 1) N (by omega)
      right; right; left; omega
    · have := cell_div_mod (u / N) (u % N + 1) N h2
      right; right; right; omega
  · rintro ⟨hv, h⟩
    have hvr : v / N < N := div_lt_side v N hv
    have hvc : v % N < N := Nat.mod_lt _ hN
    have hdec := cell_decomp v N
    rw [mem_neighbors_iff]
    generalize v / N = vr at *
    generalize v % N = vc at *
    generalize u / N = ur at *
    generalize u % N = uc at *
    rcases h with ⟨h1, h2⟩ | ⟨h1, h2⟩ | ⟨h1, h2⟩ | ⟨h1, h2⟩
    · left
      refine ⟨by omega, by omega, hc, ?_⟩
      have : ur - 1 = vr := by omega
      rw [this, ← h2]; exact hdec
    · right; left
      refine ⟨by omega, hc, ?_⟩
      rw [← h1, ← h2]; exact hdec
    · right; right; left
      refine ⟨hr, by omega, by omega, ?_⟩
      have : uc - 1 = vc := by omega
      rw [this, ← h1]; exact hdec
    · right; right; right
      refine ⟨hr, by omega, ?_⟩
      rw [← h1, ← h2]; exact hdec


/-! ## The frontier loop -/

theorem INF_pos : INF ≠ 0 := by decide

theorem relax_inv (N : Nat) (g0 : List CellState) (st en u d : Nat) (s : Search) (v : Nat)
    (hfit : N * N ≤ INF)
    (hI : SInv N g0 st en u d s) (hu : u < N * N) (hdu : s.dist.getD u INF = d)
    (hd : d ≠ INF) (hv : v ∈ neighbors N u) (hue : u ≠ en) :
    SInv N g0 st en u d (relax en d u s v) ∧
    (∀ w, s.dist.getD w INF ≠ INF →
      (relax en d u s v).dist.getD w INF = s.dist.getD w INF) ∧
    (passable g0 v → (relax en d u s v).dist.getD v INF ≠ INF ∧
      (relax en d u s v).dist.getD v INF ≤ d + 1) := by
  have hvN : v < N * N := neighbors_lt N u v hv
  have hmv := hI.marks v hvN
  unfold relax
  split
  · rename_i hskip
    refine ⟨hI, fun _ _ => rfl, ?_⟩
    intro hp
    exfalso
    split at hmv
    · rw [hmv] at hskip; simp at hskip
    · rw [hmv] at hskip
      rcases hskip with h | h
      · exact hp.1 h
      · exact hp.2 h
  · rename_i hskip
    simp only
    split
    · rename_i hlt
      have hDv : s.dist.getD v INF = INF := by
        by_contra hne
        have := hI.dist_le v hvN hne
        omega
      have hd1 : d + 1 ≠ INF := by omega
      have hvst : v ≠ st := by
        intro h
        rw [h, hI.dist_start] at hDv
        exact INF_pos hDv.symm
      have hvu : v ≠ u := by
        intro h
        have h2 := hDv
        rw [h, hdu] at h2
        omega
      have hgv : s.grid.getD v EMPTY = g0.getD v EMPTY := by
        rw [hmv, if_neg]
        intro h
        exact h.1 hDv
      have hpass : passable g0 v := by
        constructor
        · intro h; exact hskip (Or.inl (hgv.trans h))
        · intro h; exact hskip (Or.inr (hgv.trans h))
      have hvd : v < s.dist.length := by rw [hI.dlen]; exact hvN
      have hvp : v < s.prev.length := by rw [hI.plen]; exact hvN
      have hvg : v < s.grid.length := by rw [hI.glen]; exact hvN
      have hD : ∀ w, (s.dist.set v (d + 1)).getD w INF =
          if w = v then d + 1 else s.dist.getD w INF := by
        intro w
        by_cases hw : w = v
        · subst hw; rw [if_pos rfl]; exact getD_set_self _ _ _ _ hvd
        · rw [if_neg hw]; exact getD_set_other _ _ _ _ _ (Ne.symm hw)
      have hDold : ∀ w, s.dist.getD w INF ≠ INF →
          (s.dist.set v (d + 1)).getD w INF = s.dist.getD w INF := by
        intro w hw
        rw [hD, if_neg]
        intro h; subst h; exact hw hDv
      have hDnew : (s.dist.set v (d + 1)).getD v INF = d + 1 := by
        rw [hD, if_pos rfl]
      have hDne : ∀ w, (s.dist.set v (d + 1)).getD w INF ≠ INF →
          w = v ∨ (w ≠ v ∧ s.dist.getD w INF ≠ INF ∧
            (s.dist.set v (d + 1)).getD w INF = s.dist.getD w INF) := by
        intro w hw
        by_cases h : w = v
        · exact Or.inl h
        · right
          rw [hD, if_neg h] at hw
          refine ⟨h, hw, ?_⟩
          rw [hD, if_neg h]
      have hP : ∀ w, (s.prev.set v (u : Int)).getD w (-1) =
          if w = v then (u : Int) else s.prev.getD w (-1) := by
        intro w
        by_cases hw : w = v
        · subst hw; rw [if_pos rfl]; exact getD_set_self _ _ _ _ hvp
        · rw [if_neg hw]; exact getD_set_other _ _ _ _ _ (Ne.symm hw)
      have hcnt := count_set_fresh s.dist v INF (d + 1) INF hvd hDv hd1
      have hbu := hI.bound u hu (by rw [hdu]; exact hd)
      rw [hdu] at hbu
      refine ⟨?_, hDold, fun _ => ⟨by rw [hDnew]; exact hd1, by rw [hDnew]⟩⟩
      refine
        { glen := ?_, dlen := ?_, plen := ?_, pq_sorted := ?_, pq_mem := ?_, dist_le := ?_,
          pushed_iff := ?_, pushed_nodup := ?_, cnt := ?_, bound := ?_, measure := ?_,
          dist_start := ?_, prev_start := ?_, tree := ?_, fresh := ?_, marks := ?_,
          closed := ?_, trace_ok := ?_ }
      · show (if v ≠ en then s.grid.set v VISITED else s.grid).length = N * N
        split
        · rw [List.length_set]; exact hI.glen
        · exact hI.glen
      · show (s.dist.set v (d + 1)).length = N * N
        rw [List.length_set]; exact hI.dlen
      · show (s.prev.set v (u : Int)).length = N * N
        rw [List.length_set]; exact hI.plen
      · exact pairwise_pqPush _ _ hI.pq_sorted
      · intro a ha
        show a.2 < N * N ∧ (s.dist.set v (d + 1)).getD a.2 INF = a.1 ∧ a.1 ≠ INF ∧ d ≤ a.1 ∧
          a.1 ≤ d + 1
        rcases (mem_pqPush _ _ _).mp ha with rfl | ha
        · exact ⟨hvN, hDnew, hd1, by simp, by simp⟩
        · obtain ⟨h1, h2, h3, h4, h5⟩ := hI.pq_mem a ha
          refine ⟨h1, ?_, h3, h4, h5⟩
          rw [hDold _ (by rw [h2]; exact h3)]
          exact h2
      · intro w hw hne
        show (s.dist.set v (d + 1)).getD w INF ≤ d + 1
        rcases hDne w hne with rfl | ⟨_, h2, h3⟩
        · rw [hDnew]
        · rw [h3]; exact hI.dist_le w hw h2
      · intro w
        show w ∈ s.pushed ++ [v] ↔ w < N * N ∧ (s.dist.set v (d + 1)).getD w INF ≠ INF
        rw [List.mem_append, List.mem_singleton, hI.pushed_iff]
        constructor
        · rintro (⟨h1, h2⟩ | rfl)
          · exact ⟨h1, by rw [hDold _ h2]; exact h2⟩
          · exact ⟨hvN, by rw [hDnew]; exact hd1⟩
        · rintro ⟨h1, h2⟩
          rcases hDne w h2 with rfl | ⟨_, h3, _⟩
          · exact Or.inr rfl
          · exact Or.inl ⟨h1, h3⟩
      · show (s.pushed ++ [v]).Nodup
        rw [List.nodup_append]
        refine ⟨hI.pushed_nodup, List.nodup_singleton v, ?_⟩
        intro w hw hw2
        rw [List.mem_singleton] at hw2
        subst hw2
        exact ((hI.pushed_iff w).mp hw).2 hDv
      · show (s.dist.set v (d + 1)).count INF + (s.pushed ++ [v]).length = N * N
        rw [List.length_append, List.length_singleton]
        have := hI.cnt
        omega
      · intro w hw hne
        show (s.dist.set v (d + 1)).getD w INF < (s.pushed ++ [v]).length
        rw [List.length_append, List.length_singleton]
        rcases hDne w hne with rfl | ⟨_, h2, h3⟩
        · rw [hDnew]; omega
        · rw [h3]; have := hI.bound w hw h2; omega
      · show (s.pushed ++ [v]).length = (pqPush (d + 1, v) s.pq).length + s.trace.length
        rw [List.length_append, List.length_singleton, length_pqPush]
        have := hI.measure
        omega
      · show (s.dist.set v (d + 1)).getD st INF = 0
        rw [hD, if_neg (Ne.symm hvst)]; exact hI.dist_start
      · show (s.prev.set v (u : Int)).getD st (-1) = -1
        rw [hP, if_neg (Ne.symm hvst)]; exact hI.prev_start
      · intro w hw hwst hne
        show ∃ u', u' < N * N ∧ (s.prev.set v (u : Int)).getD w (-1) = (u' : Int) ∧ u' ≠ en ∧
          (s.dist.set v (d + 1)).getD u' INF ≠ INF ∧
          (s.dist.set v (d + 1)).getD w INF = (s.dist.set v (d + 1)).getD u' INF + 1 ∧
          w ∈ neighbors N u' ∧ passable g0 w
        have hdu' : s.dist.getD u INF ≠ INF := by rw [hdu]; exact hd
        rcases hDne w hne with rfl | ⟨h1, h2, h3⟩
        · refine ⟨u, hu, ?_, hue, ?_, ?_, hv, hpass⟩
          · rw [hP, if_pos rfl]
          · rw [hDold _ hdu']; exact hdu'
          · rw [hDnew, hDold _ hdu', hdu]
        · obtain ⟨u', a1, a2, a3, a4, a5, a6, a7⟩ := hI.tree w hw hwst h2
          refine ⟨u', a1, ?_, a3, ?_, ?_, a6, a7⟩
          · rw [hP, if_neg h1]; exact a2
          · rw [hDold _ a4]; exact a4
          · rw [h3, hDold _ a4]; exact a5
      · intro w hw hwi
        show (s.prev.set v (u : Int)).getD w (-1) = -1
        have hwv : w ≠ v := by
          intro h; subst h; rw [hDnew] at hwi; exact hd1 hwi
        rw [hD, if_neg hwv] at hwi
        rw [hP, if_neg hwv]
        exact hI.fresh w hw hwi
      · intro w hw
        show (if v ≠ en then s.grid.set v VISITED else s.grid).getD w EMPTY =
          if (s.dist.set v (d + 1)).getD w INF ≠ INF ∧ w ≠ st ∧ w ≠ en then VISITED
          else g0.getD w EMPTY
        by_cases hwv : w = v
        · subst hwv
          rw [hDnew]
          by_cases hwe : w = en
          · rw [if_neg (by simpa using hwe), if_neg (by simp [hwe])]
            exact hgv
          · rw [if_pos hwe, if_pos ⟨hd1, hvst, hwe⟩]
            exact getD_set_self _ _ _ _ hvg
        · rw [hD, if_neg hwv]
          have : (if v ≠ en then s.grid.set v VISITED else s.grid).getD w EMPTY =
              s.grid.getD w EMPTY := by
            split
            · exact getD_set_other _ _ _ _ _ (Ne.symm hwv)
            · rfl
          rw [this]
          exact hI.marks w hw
      · intro w hw hne hwe hwu
        show (∃ a ∈ pqPush (d + 1, v) s.pq, a.2 = w) ∨ _
        rcases hDne w hne with rfl | ⟨h1, h2, h3⟩
        · exact Or.inl ⟨(d + 1, w), (mem_pqPush _ _ _).mpr (Or.inl rfl), rfl⟩
        · rcases hI.closed w hw h2 hwe hwu with ⟨a, ha, hae⟩ | hc
          · exact Or.inl ⟨a, (mem_pqPush _ _ _).mpr (Or.inr ha), hae⟩
          · right
            intro y hy hpy
            obtain ⟨c1, c2⟩ := hc y hy hpy
            show (s.dist.set v (d + 1)).getD y INF ≠ INF ∧
              (s.dist.set v (d + 1)).getD y INF ≤ (s.dist.set v (d + 1)).getD w INF + 1
            rw [hDold _ c1, h3]
            exact ⟨c1, c2⟩
      · intro ev hev
        show ev = Event.goal en ∨ ∃ u', ev = Event.expand u' ∧ u' ≠ en ∧ u' ∈ s.pushed ++ [v]
        rcases hI.trace_ok ev hev with h | ⟨u', h1, h2, h3⟩
        · exact Or.inl h
        · exact Or.inr ⟨u', h1, h2, List.mem_append_left _ h3⟩
    · rename_i hge
      refine ⟨hI, fun _ _ => rfl, ?_⟩
      intro _
      have hle : s.dist.getD v INF ≤ d + 1 := by omega
      refine ⟨?_, hle⟩
      intro hinf
      have hvd : v < s.dist.length := by rw [hI.dlen]; exact hvN
      have hpos := count_pos_of_getD s.dist v INF INF hvd hinf
      have hbu := hI.bound u hu (by rw [hdu]; exact hd)
      have := hI.cnt
      rw [hdu] at hbu
      omega

theorem relax_trace (en d u : Nat) (s : Search) (v : Nat) :
    (relax en d u s v).trace = s.trace := by
  unfold relax
  split
  · rfl
  · simp only
    split <;> rfl

theorem relaxAll_trace (en d u : Nat) (ns : List Nat) :
    ∀ s : Search, (ns.foldl (relax en d u) s).trace = s.trace := by
  induction ns with
  | nil => intro s; rfl
  | cons v vs ih =>
    intro s
    rw [List.foldl_cons, ih, relax_trace]

theorem relaxAll_inv (N : Nat) (g0 : List CellState) (st en u d : Nat)
    (hfit : N * N ≤ INF) (hu : u < N * N) (hd : d ≠ INF) (hue : u ≠ en) (ns : List Nat) :
    ∀ s : Search, SInv N g0 st en u d s → s.dist.getD u INF = d →
      (∀ v ∈ ns, v ∈ neighbors N u) →
      SInv N g0 st en u d (ns.foldl (relax en d u) s) ∧
      (∀ w, s.dist.getD w INF ≠ INF →
        (ns.foldl (relax en d u) s).dist.getD w INF = s.dist.getD w INF) ∧
      (∀ v ∈ ns, passable g0 v →
        (ns.foldl (relax en d u) s).dist.getD v INF ≠ INF ∧
        (ns.foldl (relax en d u) s).dist.getD v INF ≤ d + 1) := by
  induction ns with
  | nil =>
    intro s hI _ _
    exact ⟨hI, fun _ _ => rfl, fun v hv => absurd hv (List.not_mem_nil v)⟩
  | cons v vs ih =>
    intro s hI hdu hns
    obtain ⟨hI1, hm1, hp1⟩ :=
      relax_inv N g0 st en u d s v hfit hI hu hdu hd (hns v (List.mem_cons_self _ _)) hue
    have hdu1 : (relax en d u s v).dist.getD u INF = d := by
      rw [hm1 u (by rw [hdu]; exact hd)]; exact hdu
    obtain ⟨hI2, hm2, hp2⟩ :=
      ih (relax en d u s v) hI1 hdu1 (fun w hw => hns w (List.mem_cons_of_mem _ hw))
    rw [List.foldl_cons]
    refine ⟨hI2, ?_, ?_⟩
    · intro w hw
      have h1 := hm1 w hw
      rw [hm2 w (by rw [h1]; exact hw), h1]
    · intro w hw hpw
      rcases List.mem_cons.mp hw with rfl | hw
      · obtain ⟨a, b⟩ := hp1 hpw
        rw [hm2 w a]
        exact ⟨a, b⟩
      · exact hp2 w hw hpw

theorem pop_inv (N : Nat) (g0 : List CellState) (st en L : Nat) (s : Search)
    (d u : Nat) (rest : List (Nat × Nat)) (ev : Event)
    (hI : SInv N g0 st en en L s) (hpq : s.pq = (d, u) :: rest)
    (hev : ev = Event.goal en ∨ (ev = Event.expand u ∧ u ≠ en)) :
    SInv N g0 st en u d { s with pq := rest, trace := s.trace ++ [ev] } := by
  have hsorted := hI.pq_sorted
  rw [hpq, List.pairwise_cons] at hsorted
  obtain ⟨h1, h2, h3, h4, h5⟩ := hI.pq_mem (d, u) (by rw [hpq]; exact List.mem_cons_self _ _)
  simp only at h1 h2 h3 h4 h5
  refine
    { glen := hI.glen, dlen := hI.dlen, plen := hI.plen, pq_sorted := hsorted.2, pq_mem := ?_,
      dist_le := ?_, pushed_iff := hI.pushed_iff, pushed_nodup := hI.pushed_nodup,
      cnt := hI.cnt, bound := hI.bound, measure := ?_, dist_start := hI.dist_start,
      prev_start := hI.prev_start, tree := hI.tree, fresh := hI.fresh, marks := hI.marks,
      closed := ?_, trace_ok := ?_ }
  · intro a ha
    obtain ⟨a1, a2, a3, a4, a5⟩ := hI.pq_mem a (by rw [hpq]; exact List.mem_cons_of_mem _ ha)
    have := hsorted.1 a ha
    simp only at this
    exact ⟨a1, a2, a3, this, by omega⟩
  · intro v hv hne
    have := hI.dist_le v hv hne
    show s.dist.getD v INF ≤ d + 1
    omega
  · show s.pushed.length = rest.length + (s.trace ++ [ev]).length
    have := hI.measure
    rw [hpq] at this
    simp only [List.length_cons] at this
    rw [List.length_append, List.length_singleton]
    omega
  · intro w hw hne hwe hwu
    rcases hI.closed w hw hne hwe hwe with ⟨a, ha, hae⟩ | hc
    · rw [hpq] at ha
      rcases List.mem_cons.mp ha with rfl | ha
      · exact absurd hae.symm hwu
      · exact Or.inl ⟨a, ha, hae⟩
    · exact Or.inr hc
  · intro e he
    show e = Event.goal en ∨ ∃ u', e = Event.expand u' ∧ u' ≠ en ∧ u' ∈ s.pushed
    rcases List.mem_append.mp he with he | he
    · exact hI.trace_ok e he
    · rw [List.mem_singleton] at he
      subst he
      rcases hev with h | ⟨h, hue⟩
      · exact Or.inl h
      · exact Or.inr ⟨u, h, hue, (hI.pushed_iff u).mpr ⟨h1, by rw [h2]; exact h3⟩⟩

theorem close_inv (N : Nat) (g0 : List CellState) (st en u d : Nat) (s : Search)
    (hI : SInv N g0 st en u d s) (hu : u = en ∨ Closed N g0 s u) :
    SInv N g0 st en en d s :=
  { glen := hI.glen, dlen := hI.dlen, plen := hI.plen, pq_sorted := hI.pq_sorted,
    pq_mem := hI.pq_mem, dist_le := hI.dist_le, pushed_iff := hI.pushed_iff,
    pushed_nodup := hI.pushed_nodup, cnt := hI.cnt, bound := hI.bound, measure := hI.measure,
    dist_start := hI.dist_start, prev_start := hI.prev_start, tree := hI.tree,
    fresh := hI.fresh, marks := hI.marks, trace_ok := hI.trace_ok,
    closed := by
      intro w hw hne hwe _
      by_cases hwu : w = u
      · rcases hu with h | h
        · exact absurd (hwu.trans h) hwe
        · exact Or.inr (hwu ▸ h)
      · exact hI.closed w hw hne hwe hwu }

theorem searchLoop_spec (N : Nat) (g0 : List CellState) (st en : Nat) (hfit : N * N ≤ INF) :
    ∀ (fuel : Nat) (s : Search) (L : Nat), SInv N g0 st en en L s →
      N * N + 1 ≤ fuel + s.trace.length →
      ∃ s' L', searchLoop N en fuel s = some s' ∧ SInv N g0 st en en L' s' ∧
        (s'.pq = [] ∨ (s'.dist.getD en INF ≠ INF ∧ L' = s'.dist.getD en INF)) := by
  intro fuel
  induction fuel with
  | zero =>
    intro s L hI hfuel
    exfalso
    have h1 := hI.measure
    have h2 := hI.cnt
    omega
  | succ fuel ih =>
    intro s L hI hfuel
    unfold searchLoop
    cases hpq : s.pq with
    | nil => exact ⟨s, L, rfl, hI, Or.inl hpq⟩
    | cons a rest =>
      obtain ⟨d, u⟩ := a
      obtain ⟨h1, h2, h3, h4, h5⟩ := hI.pq_mem (d, u) (by rw [hpq]; exact List.mem_cons_self _ _)
      simp only at h1 h2 h3 h4 h5
      simp only
      rw [if_neg (by rw [h2]; exact lt_irrefl d)]
      by_cases hue : u = en
      · rw [if_pos hue]
        have hI1 := pop_inv N g0 st en L s d u rest (Event.goal u) hI hpq (Or.inl (by rw [hue]))
        refine ⟨_, d, rfl, close_inv N g0 st en u d _ hI1 (Or.inl hue), Or.inr ?_⟩
        show s.dist.getD en INF ≠ INF ∧ d = s.dist.getD en INF
        rw [← hue, h2]
        exact ⟨h3, rfl⟩
      · rw [if_neg hue]
        have hI1 := pop_inv N g0 st en L s d u rest (Event.expand u) hI hpq (Or.inr ⟨rfl, hue⟩)
        obtain ⟨hI2, hm2, hp2⟩ := relaxAll_inv N g0 st en u d hfit h1 h3 hue (neighbors N u)
          { s with pq := rest, trace := s.trace ++ [Event.expand u] } hI1 h2 (fun v hv => hv)
        have hcl : Closed N g0 ((neighbors N u).foldl (relax en d u)
            { s with pq := rest, trace := s.trace ++ [Event.expand u] }) u := by
          intro v hv hpv
          obtain ⟨a, b⟩ := hp2 v hv hpv
          refine ⟨a, ?_⟩
          rw [hm2 u (by show s.dist.getD u INF ≠ INF; rw [h2]; exact h3)]
          show _ ≤ s.dist.getD u INF + 1
          rw [h2]; exact b
        have hI3 := close_inv N g0 st en u d _ hI2 (Or.inr hcl)
        apply ih _ d hI3
        rw [relaxAll_trace]
        show N * N + 1 ≤ fuel + (s.trace ++ [Event.expand u]).length
        rw [List.length_append, List.length_singleton]
        omega

theorem getD_clearTransient (g : List CellState) (v : Nat) :
    (clearTransient g).getD v EMPTY = clearCell (g.getD v EMPTY) := by
  have h : (EMPTY : CellState) = clearCell EMPTY := by decide
  unfold clearTransient
  conv_lhs => rw [h]
  exact List.getD_map g EMPTY clearCell

theorem init_inv (N : Nat) (g : List CellState) (st en : Nat)
    (hlen : g.length = N * N) (hst : st < N * N) :
    SInv N (clearTransient g) st en en 0 (initSearch N g st) := by
  have hD : ∀ w, ((List.replicate (N * N) INF).set st 0).getD w INF =
      if w = st then 0 else INF := by
    intro w
    by_cases hw : w = st
    · subst hw
      rw [if_pos rfl]
      exact getD_set_self _ _ _ _ (by rw [List.length_replicate]; exact hst)
    · rw [if_neg hw, getD_set_other _ _ _ _ _ (Ne.symm hw)]
      simp only [List.getD_eq_getElem?_getD, List.getElem?_replicate]
      split <;> rfl
  have hDne : ∀ w, ((List.replicate (N * N) INF).set st 0).getD w INF ≠ INF → w = st := by
    intro w hw
    by_contra h
    rw [hD, if_neg h] at hw
    exact hw rfl
  have hP : ∀ w, (List.replicate (N * N) (-1 : Int)).getD w (-1) = -1 := by
    intro w
    simp only [List.getD_eq_getElem?_getD, List.getElem?_replicate]
    split <;> rfl
  unfold initSearch
  refine
    { glen := ?_, dlen := ?_, plen := ?_, pq_sorted := ?_, pq_mem := ?_, dist_le := ?_,
      pushed_iff := ?_, pushed_nodup := ?_, cnt := ?_, bound := ?_, measure := ?_,
      dist_start := ?_, prev_start := ?_, tree := ?_, fresh := ?_, marks := ?_,
      closed := ?_, trace_ok := ?_ }
  · show (clearTransient g).length = N * N
    unfold clearTransient
    rw [List.length_map]; exact hlen
  · show ((List.replicate (N * N) INF).set st 0).length = N * N
    rw [List.length_set, List.length_replicate]
  · show (List.replicate (N * N) (-1 : Int)).length = N * N
    rw [List.length_replicate]
  · exact List.pairwise_singleton _ _
  · intro a ha
    rw [List.mem_singleton] at ha
    subst ha
    refine ⟨hst, ?_, Ne.symm INF_pos, le_refl _, by omega⟩
    show ((List.replicate (N * N) INF).set st 0).getD st INF = 0
    rw [hD, if_pos rfl]
  · intro v _ hne
    show ((List.replicate (N * N) INF).set st 0).getD v INF ≤ 0 + 1
    rw [hD, if_pos (hDne v hne)]
    omega
  · intro v
    show v ∈ [st] ↔ v < N * N ∧ ((List.replicate (N * N) INF).set st 0).getD v INF ≠ INF
    rw [List.mem_singleton]
    constructor
    · rintro rfl
      refine ⟨hst, ?_⟩
      rw [hD, if_pos rfl]
      exact Ne.symm INF_pos
    · rintro ⟨_, h⟩
      exact hDne v h
  · exact List.nodup_singleton _
  · show ((List.replicate (N * N) INF).set st 0).count INF + [st].length = N * N
    have h1 := count_set_fresh (List.replicate (N * N) INF) st INF 0 INF
      (by rw [List.length_replicate]; exact hst)
      (getD_replicate_lt _ _ _ _ hst) (Ne.symm INF_pos)
    rw [List.count_replicate_self] at h1
    rw [List.length_singleton]
    exact h1
  · intro v _ hne
    show ((List.replicate (N * N) INF).set st 0).getD v INF < [st].length
    rw [hD, if_pos (hDne v hne)]
    simp
  · rfl
  · show ((List.replicate (N * N) INF).set st 0).getD st INF = 0
    rw [hD, if_pos rfl]
  · exact hP st
  · intro v _ hvst hne
    exact absurd (hDne v hne) hvst
  · intro v _ _
    exact hP v
  · intro v _
    show (clearTransient g).getD v EMPTY =
      if ((List.replicate (N * N) INF).set st 0).getD v INF ≠ INF ∧ v ≠ st ∧ v ≠ en then VISITED
      else (clearTransient g).getD v EMPTY
    rw [if_neg]
    rintro ⟨h1, h2, _⟩
    exact h2 (hDne v h1)
  · intro u _ hne _ _
    left
    exact ⟨(0, st), List.mem_singleton.mpr rfl, (hDne u hne).symm⟩
  · intro ev hev
    exact absurd hev (List.not_mem_nil ev)

theorem search_spec (N : Nat) (g : List CellState) (st en : Nat)
    (hfit : N * N ≤ INF) (hlen : g.length = N * N) (hst : st < N * N) :
    ∃ s L, search N g st en = some s ∧ SInv N (clearTransient g) st en en L s ∧
      (s.pq = [] ∨ (s.dist.getD en INF ≠ INF ∧ L = s.dist.getD en INF)) := by
  unfold search
  apply searchLoop_spec N (clearTransient g) st en hfit (N * N + 1) _ 0
    (init_inv N g st en hlen hst)
  omega

/-! ## The backward walk -/

theorem walkBack_step (prev : List Int) (st fuel v u : Nat) (gr : List CellState)
    (h : prev.getD v (-1) = (u : Int)) :
    walkBack prev (st : Int) (fuel + 1) (v : Int) gr =
      walkBack prev (st : Int) fuel (u : Int) (if u ≠ st then gr.set u PATH else gr) := by
  rw [walkBack]
  simp only [Int.toNat_natCast, h]
  rw [if_pos ⟨by omega, by omega⟩]
  by_cases hus : u = st
  · subst hus; simp
  · rw [if_pos hus, if_pos (by omega)]

theorem walkBack_stop (prev : List Int) (st fuel v : Nat) (gr : List CellState)
    (h : prev.getD v (-1) = -1) :
    walkBack prev (st : Int) (fuel + 1) (v : Int) gr = some ((v : Int), gr) := by
  rw [walkBack]
  simp only [Int.toNat_natCast, h]
  simp

theorem walkBack_spec (N : Nat) (g0 : List CellState) (st en x L : Nat) (s : Search)
    (hI : SInv N g0 st en x L s) :
    ∀ (k v : Nat) (gr : List CellState), v < N * N → s.dist.getD v INF = k → k ≠ INF →
      gr.length = N * N →
      ∃ p gr', walkBack s.prev (st : Int) (k + 1) (v : Int) gr = some ((st : Int), gr') ∧
        walkBack s.prev (st : Int) k (v : Int) gr = none ∧
        gr'.length = N * N ∧
        p.head? = some st ∧ p.getLast? = some v ∧ v ∈ p ∧ p.length = k + 1 ∧
        List.Chain' (fun a b => b ∈ neighbors N a) p ∧
        (∀ w ∈ p, w < N * N ∧ s.dist.getD w INF ≤ k ∧ (w ≠ st → passable g0 w) ∧
          (w ≠ v → w ≠ en)) ∧
        p.Nodup ∧
        (∀ w, w < N * N →
          gr'.getD w EMPTY = if w ∈ p ∧ w ≠ st ∧ w ≠ v then PATH else gr.getD w EMPTY) ∧
        ((∀ w, w < N * N → s.dist.getD w INF < k → gr.getD w EMPTY ≠ PATH) →
          gr'.count PATH = gr.count PATH + (k - 1)) := by
  intro k
  induction k with
  | zero =>
    intro v gr hv hDv _ hlen
    have hvst : v = st := by
      by_contra h
      obtain ⟨u, _, _, _, _, h5, _⟩ := hI.tree v hv h (by rw [hDv]; exact Ne.symm INF_pos)
      omega
    subst hvst
    refine ⟨[v], gr, walkBack_stop _ _ _ _ _ hI.prev_start, rfl, hlen, rfl, rfl,
      List.mem_singleton.mpr rfl, rfl, List.chain'_singleton _, ?_, List.nodup_singleton _,
      ?_, fun _ => rfl⟩
    · intro w hw
      rw [List.mem_singleton] at hw
      subst hw
      exact ⟨hv, by omega, fun h => absurd rfl h, fun h => absurd rfl h⟩
    · intro w _
      rw [if_neg]
      rintro ⟨h1, h2, _⟩
      exact h2 (List.mem_singleton.mp h1)
  | succ k ih =>
    intro v gr hv hDv hk hlen
    have hvst : v ≠ st := by
      intro h
      rw [h, hI.dist_start] at hDv
      omega
    obtain ⟨u, hu, hprev, hue, hDu, hDvu, hadj, hpass⟩ :=
      hI.tree v hv hvst (by rw [hDv]; exact hk)
    have hDu' : s.dist.getD u INF = k := by omega
    have hkI : k ≠ INF := by rw [← hDu']; exact hDu
    have hvu : v ≠ u := by
      intro h; rw [h] at hDv; omega
    have hlen1 : (if u ≠ st then gr.set u PATH else gr).length = N * N := by
      split
      · rw [List.length_set]; exact hlen
      · exact hlen
    obtain ⟨p, gr', h1, h2, h3, h4, h5, h6, h7, h8, h9, h10, h11, h12⟩ :=
      ih u (if u ≠ st then gr.set u PATH else gr) hu hDu' hkI hlen1
    have hvp : v ∉ p := by
      intro h
      have := (h9 v h).2.1
      omega
    refine ⟨p ++ [v], gr', ?_, ?_, h3, ?_, ?_, ?_, ?_, ?_, ?_, ?_, ?_, ?_⟩
    · rw [walkBack_step _ _ _ _ _ _ hprev]; exact h1
    · rw [walkBack_step _ _ _ _ _ _ hprev]; exact h2
    · rw [List.head?_append, h4]; rfl
    · rw [List.getLast?_append]; rfl
    · exact List.mem_append_right _ (List.mem_singleton.mpr rfl)
    · rw [List.length_append, List.length_singleton, h7]
    · rw [List.chain'_append]
      refine ⟨h8, List.chain'_singleton _, ?_⟩
      intro a ha b hb
      rw [h5] at ha
      cases ha
      cases hb
      exact hadj
    · intro w hw
      rcases List.mem_append.mp hw with hw | hw
      · obtain ⟨a1, a2, a3, a4⟩ := h9 w hw
        refine ⟨a1, by omega, a3, ?_⟩
        intro _
        by_cases hwu : w = u
        · rw [hwu]; exact hue
        · exact a4 hwu
      · rw [List.mem_singleton] at hw
        subst hw
        exact ⟨hv, by omega, fun _ => hpass, fun h => absurd rfl h⟩
    · rw [List.nodup_append]
      refine ⟨h10, List.nodup_singleton _, ?_⟩
      intro w hw hw2
      rw [List.mem_singleton] at hw2
      subst hw2
      exact hvp hw
    · intro w hw
      rw [h11 w hw]
      have hug : u < gr.length := by rw [hlen]; exact hu
      by_cases hwv : w = v
      · subst hwv
        have e1 : ¬ (w ∈ p ∧ w ≠ st ∧ w ≠ u) := fun h => hvp h.1
        have e2 : ¬ (w ∈ p ++ [w] ∧ w ≠ st ∧ w ≠ w) := fun h => h.2.2 rfl
        rw [if_neg e1, if_neg e2]
        split
        · exact getD_set_other _ _ _ _ _ (Ne.symm hvu)
        · rfl
      · by_cases hc : w ∈ p ∧ w ≠ st
        · have e2 : w ∈ p ++ [v] ∧ w ≠ st ∧ w ≠ v := ⟨List.mem_append_left _ hc.1, hc.2, hwv⟩
          rw [if_pos e2]
          by_cases hwu : w = u
          · subst hwu
            have e1 : ¬ (w ∈ p ∧ w ≠ st ∧ w ≠ w) := fun h => h.2.2 rfl
            rw [if_neg e1, if_pos hc.2]
            exact getD_set_self _ _ _ _ hug
          · have e1 : w ∈ p ∧ w ≠ st ∧ w ≠ u := ⟨hc.1, hc.2, hwu⟩
            rw [if_pos e1]
        · have hc2 : ¬ (w ∈ p ++ [v] ∧ w ≠ st ∧ w ≠ v) := by
            rintro ⟨a, b, _⟩
            rcases List.mem_append.mp a with a | a
            · exact hc ⟨a, b⟩
            · exact hwv (List.mem_singleton.mp a)
          have e1 : ¬ (w ∈ p ∧ w ≠ st ∧ w ≠ u) := fun h => hc ⟨h.1, h.2.1⟩
          rw [if_neg hc2, if_neg e1]
          split
          · rename_i hus
            have hwu : w ≠ u := by
              intro h; subst h; exact hc ⟨h6, hus⟩
            exact getD_set_other _ _ _ _ _ (Ne.symm hwu)
          · rfl
    · intro hnp
      have hug : u < gr.length := by rw [hlen]; exact hu
      have hnp1 : ∀ w, w < N * N → s.dist.getD w INF < k →
          (if u ≠ st then gr.set u PATH else gr).getD w EMPTY ≠ PATH := by
        intro w hw hwk
        have hwu : w ≠ u := by intro h; rw [h] at hwk; omega
        have : (if u ≠ st then gr.set u PATH else gr).getD w EMPTY = gr.getD w EMPTY := by
          split
          · exact getD_set_other _ _ _ _ _ (Ne.symm hwu)
          · rfl
        rw [this]
        exact hnp w hw (by omega)
      rw [h12 hnp1]
      by_cases hus : u = st
      · have : k = 0 := by rw [← hDu', hus]; exact hI.dist_start
        subst this
        rw [if_neg (by simpa using hus)]
      · rw [if_pos hus]
        have hk0 : k ≠ 0 := by
          intro h0
          apply hus
          by_contra hne
          obtain ⟨_, _, _, _, _, h5', _⟩ := hI.tree u hu hne hDu
          omega
        rw [count_set_new gr u PATH EMPTY hug (hnp u hu (by omega))]
        omega

/-! ## The run as a whole -/

theorem clearCell_obstacle (c : CellState) : clearCell c = OBSTACLE ↔ c = OBSTACLE := by
  cases c <;> decide

theorem clearCell_start (c : CellState) : clearCell c = START ↔ c = START := by
  cases c <;> decide

theorem clearCell_end (c : CellState) : clearCell c = END ↔ c = END := by
  cases c <;> decide

theorem clearCell_not_path (c : CellState) : clearCell c ≠ PATH := by
  cases c <;> decide

theorem clearCell_not_visited (c : CellState) : clearCell c ≠ VISITED := by
  cases c <;> decide

theorem clearCell_idem (c : CellState) : clearCell (clearCell c) = clearCell c := by
  cases c <;> decide

theorem walkBack_mono (prev : List Int) (st : Int) :
    ∀ (fuel : Nat) (cur : Int) (gr : List CellState) (r : Int × List CellState),
      walkBack prev st fuel cur gr = some r →
      ∀ m, walkBack prev st (fuel + m) cur gr = some r := by
  intro fuel
  induction fuel with
  | zero => intro cur gr r h; simp [walkBack] at h
  | succ fuel ih =>
    intro cur gr r h m
    have e : fuel + 1 + m = (fuel + m) + 1 := by omega
    rw [e, walkBack]
    rw [walkBack] at h
    split
    · rename_i hc
      rw [if_pos hc] at h
      exact ih _ _ _ h m
    · rename_i hc
      rw [if_neg hc] at h
      exact h

theorem search_grid_no_path (N : Nat) (g : List CellState) (st en x L : Nat) (s : Search)
    (hI : SInv N (clearTransient g) st en x L s) :
    ∀ w, w < N * N → s.grid.getD w EMPTY ≠ PATH := by
  intro w hw
  rw [hI.marks w hw]
  split
  · decide
  · rw [getD_clearTransient]; exact clearCell_not_path _

theorem count_eq_zero_of_getD {α : Type} [DecidableEq α] (l : List α) (x d : α)
    (h : ∀ i, i < l.length → l.getD i d ≠ x) : l.count x = 0 := by
  rw [List.count_eq_zero]
  intro hmem
  obtain ⟨i, hi, hx⟩ := List.mem_iff_getElem.mp hmem
  apply h i hi
  rw [getD_eq_getElem_of_lt l i d hi]
  exact hx

/-- The run returns; its result is described from the state `s` in which the
frontier loop ends. -/
theorem engine_spec (N : Nat) (g : List CellState) (st en : Nat)
    (hfit : N * N ≤ INF) (hlen : g.length = N * N) (hst : st < N * N) (hen : en < N * N) :
    ∃ s L g', search N g st en = some s ∧ SInv N (clearTransient g) st en en L s ∧
      (s.pq = [] ∨ (s.dist.getD en INF ≠ INF ∧ L = s.dist.getD en INF)) ∧
      engine N g st en = some g' ∧ g'.length = N * N ∧
      (s.dist.getD en INF = INF → g' = s.grid) ∧
      (s.dist.getD en INF ≠ INF →
        ∃ p, p.head? = some st ∧ p.getLast? = some en ∧
          p.length = s.dist.getD en INF + 1 ∧
          List.Chain' (fun a b => b ∈ neighbors N a) p ∧
          (∀ w ∈ p, w < N * N ∧ s.dist.getD w INF ≠ INF ∧
            (w ≠ st → passable (clearTransient g) w)) ∧
          p.Nodup ∧
          (∀ w, w < N * N →
            g'.getD w EMPTY = if w ∈ p ∧ w ≠ st ∧ w ≠ en then PATH else s.grid.getD w EMPTY) ∧
          g'.count PATH = s.dist.getD en INF - 1) := by
  obtain ⟨s, L, hs, hI, hex⟩ := search_spec N g st en hfit hlen hst
  by_cases hD : s.dist.getD en INF = INF
  · refine ⟨s, L, s.grid, hs, hI, hex, ?_, hI.glen, fun _ => rfl, fun h => absurd hD h⟩
    unfold engine
    rw [hs]
    simp only
    rw [walkBack_stop _ _ _ _ _ (hI.fresh en hen hD)]
  · obtain ⟨p, g', h1, _, h3, h4, h5, _, h7, h8, h9, h10, h11, h12⟩ :=
      walkBack_spec N (clearTransient g) st en en L s hI (s.dist.getD en INF) en s.grid hen rfl hD
        hI.glen
    have hb := hI.bound en hen hD
    have hc := hI.cnt
    have hle : s.dist.getD en INF + 1 ≤ N * N + 1 := by omega
    obtain ⟨m, hm⟩ := Nat.exists_eq_add_of_le hle
    have hw := walkBack_mono _ _ _ _ _ _ h1 m
    rw [← hm] at hw
    refine ⟨s, L, g', hs, hI, hex, ?_, h3, fun h => absurd h hD, fun _ => ?_⟩
    · unfold engine
      rw [hs]
      simp only
      rw [hw]
    · refine ⟨p, h4, h5, h7, h8, ?_, h10, h11, ?_⟩
      · intro w hw
        obtain ⟨a1, a2, a3, _⟩ := h9 w hw
        refine ⟨a1, ?_, a3⟩
        intro h
        rw [h] at a2
        have := hI.bound en hen hD
        have := hI.cnt
        omega
      · have hz : s.grid.count PATH = 0 :=
          count_eq_zero_of_getD s.grid PATH EMPTY (by
            intro i hi
            rw [hI.glen] at hi
            exact search_grid_no_path N g st en en L s hI i hi)
        rw [h12 (fun w hw _ => search_grid_no_path N g st en en L s hI w hw), hz]
        omega

/-! ## Walks and reachability -/

theorem neighbors_adj (N u v : Nat) (h : v ∈ neighbors N u) : Adj4 N u v := by
  unfold Adj4
  rcases (mem_neighbors_iff N u v).mp h with
    ⟨h1, h2, h3, rfl⟩ | ⟨h1, h2, rfl⟩ | ⟨h1, h2, h3, rfl⟩ | ⟨h1, h2, rfl⟩
  · have := cell_div_mod (u / N - 1) (u % N) N h3
    right; omega
  · have := cell_div_mod (u / N + 1) (u % N) N h2
    right; omega
  · have := cell_div_mod (u / N) (u % N - 1) N (by omega)
    left; omega
  · have := cell_div_mod (u / N) (u % N + 1) N h2
    left; omega

theorem adj_neighbors (N u v : Nat) (hu : u < N * N) (hv : v < N * N) (h : Adj4 N u v) :
    v ∈ neighbors N u := by
  rw [neighbors_coord N u v hu]
  refine ⟨hv, ?_⟩
  unfold Adj4 at h
  omega

theorem passable_of_wf (N : Nat) (g : List CellState) (st en w : Nat)
    (hwf : WellFormed N g st en) (hw : w < N * N) (hws : w ≠ st)
    (hob : g.getD w EMPTY ≠ OBSTACLE) : passable (clearTransient g) w := by
  obtain ⟨_, _, _, _, hS, _⟩ := hwf
  unfold passable
  rw [getD_clearTransient, Ne, Ne, clearCell_obstacle, clearCell_start, hS w hw]
  exact ⟨hob, hws⟩

theorem walk_snoc (N : Nat) (g : List CellState) (a w : Nat) (q : List Nat) (b : Nat)
    (h : WalkFromTo N g a w (q ++ [b])) :
    w = b ∧ b < N * N ∧ g.getD b EMPTY ≠ OBSTACLE ∧
    (q = [] → a = b) ∧
    (q ≠ [] → ∃ w0, WalkFromTo N g a w0 q ∧ Adj4 N w0 b) := by
  obtain ⟨⟨hch, hall⟩, hh, hl⟩ := h
  have hb := hall b (List.mem_append_right _ (List.mem_singleton.mpr rfl))
  have hwb : w = b := by
    rw [List.getLast?_append] at hl
    simp at hl
    exact hl.symm
  refine ⟨hwb, hb.1, hb.2, ?_, ?_⟩
  · intro hq
    subst hq
    simp at hh
    exact hh.symm
  · intro hq
    rw [List.chain'_append] at hch
    obtain ⟨w0, hw0⟩ : ∃ w0, q.getLast? = some w0 :=
      ⟨q.getLast hq, List.getLast?_eq_getLast q hq⟩
    refine ⟨w0, ⟨⟨hch.1, fun v hv => hall v (List.mem_append_left _ hv)⟩, ?_, hw0⟩, ?_⟩
    · cases q with
      | nil => exact absurd rfl hq
      | cons c cs => simpa using hh
    · exact hch.2.2 w0 (by rw [hw0]; exact rfl) b (by simp)

theorem walk_discovered (N : Nat) (g : List CellState) (st en L : Nat) (s : Search)
    (hwf : WellFormed N g st en) (hI : SInv N (clearTransient g) st en en L s)
    (hex : s.pq = [] ∨ (s.dist.getD en INF ≠ INF ∧ L = s.dist.getD en INF)) :
    ∀ (p : List Nat) (w : Nat), WalkFromTo N g st w p →
      (s.dist.getD en INF = INF ∨ p.length ≤ s.dist.getD en INF) →
      s.dist.getD w INF ≠ INF ∧ s.dist.getD w INF + 1 ≤ p.length := by
  intro p
  induction p using List.reverseRecOn with
  | nil =>
    intro w h
    have := h.2.1
    simp at this
  | append_singleton q b ih =>
    intro w hw hlen
    obtain ⟨hwb, hbN, hbo, hq0, hq1⟩ := walk_snoc N g st w q b hw
    subst hwb
    rw [List.length_append, List.length_singleton] at hlen ⊢
    by_cases hws : w = st
    · rw [hws, hI.dist_start]
      exact ⟨Ne.symm INF_pos, by omega⟩
    · have hq : q ≠ [] := fun h => hws (hq0 h).symm
      obtain ⟨w0, hw0, hadj⟩ := hq1 hq
      have hw0N : w0 < N * N := by
        have hm : w0 ∈ q := List.mem_of_getLast?_eq_some hw0.2.2
        exact (hw0.1.2 w0 hm).1
      obtain ⟨i1, i2⟩ := ih w0 hw0 (by omega)
      have hw0e : w0 ≠ en := by
        intro h
        rw [h] at i1 i2
        rcases hlen with h1 | h1
        · exact i1 h1
        · omega
      have hcl : Closed N (clearTransient g) s w0 := by
        rcases hI.closed w0 hw0N i1 hw0e hw0e with ⟨a, ha, hae⟩ | hc
        · exfalso
          rcases hex with h | ⟨h1, h2⟩
          · rw [h] at ha; exact List.not_mem_nil a ha
          · obtain ⟨_, b2, _, b4, _⟩ := hI.pq_mem a ha
            rw [hae] at b2
            rcases hlen with h3 | h3
            · exact h1 h3
            · omega
        · exact hc
      obtain ⟨c1, c2⟩ := hcl w (adj_neighbors N w0 w hw0N hbN hadj)
        (passable_of_wf N g st en w hwf hbN hws hbo)
      exact ⟨c1, by omega⟩

theorem isWalk_of_chain (N : Nat) (g : List CellState) (st en : Nat) (p : List Nat)
    (hwf : WellFormed N g st en)
    (hch : List.Chain' (fun a b => b ∈ neighbors N a) p)
    (hall : ∀ w ∈ p, w < N * N ∧ (w ≠ st → passable (clearTransient g) w)) :
    IsWalk N g p := by
  refine ⟨List.Chain'.imp (fun a b h => neighbors_adj N a b h) hch, ?_⟩
  intro w hw
  obtain ⟨h1, h2⟩ := hall w hw
  refine ⟨h1, ?_⟩
  by_cases hws : w = st
  · have := (hwf.2.2.2.2.1 w h1).mpr hws
    rw [this]; decide
  · have := (h2 hws).1
    rw [getD_clearTransient, Ne, clearCell_obstacle] at this
    exact this

theorem discovered_reachable (N : Nat) (g : List CellState) (st en x L : Nat) (s : Search)
    (hwf : WellFormed N g st en) (hI : SInv N (clearTransient g) st en x L s)
    (v : Nat) (hv : v < N * N) (hD : s.dist.getD v INF ≠ INF) : Reachable N g st v := by
  obtain ⟨p, _, _, _, _, h4, h5, _, _, h8, h9, _, _, _⟩ :=
    walkBack_spec N (clearTransient g) st en x L s hI (s.dist.getD v INF) v s.grid hv rfl hD
      hI.glen
  exact ⟨p, isWalk_of_chain N g st en p hwf h8 (fun w hw => ⟨(h9 w hw).1, (h9 w hw).2.2.1⟩),
    h4, h5⟩

theorem run_shortest_path (N : Nat) (g : List CellState) (st en : Nat)
    (hfit : N * N ≤ INF) (hwf : WellFormed N g st en) (hreach : Reachable N g st en) :
    ∃ g' p, engine N g st en = some g' ∧ WalkFromTo N g st en p ∧ p.Nodup ∧
      (∀ i, i < N * N → (g'.getD i EMPTY = PATH ↔ i ∈ p ∧ i ≠ st ∧ i ≠ en)) ∧
      (∀ q, WalkFromTo N g st en q → p.length ≤ q.length) ∧
      g'.count PATH + 2 = p.length ∧
      (Adj4 N st en → g'.count PATH = 0) := by
  obtain ⟨hlen, hst, hen, hse, hS, hE⟩ := hwf
  have hwf : WellFormed N g st en := ⟨hlen, hst, hen, hse, hS, hE⟩
  obtain ⟨s, L, g', _, hI, hex, heng, _, _, hp⟩ := engine_spec N g st en hfit hlen hst hen
  obtain ⟨q0, hq0⟩ := hreach
  have hD : s.dist.getD en INF ≠ INF := by
    intro h
    exact (walk_discovered N g st en L s hwf hI hex q0 en hq0 (Or.inl h)).1 h
  obtain ⟨p, p1, p2, p3, p4, p5, p6, p7, p8⟩ := hp hD
  have hmin : ∀ q, WalkFromTo N g st en q → p.length ≤ q.length := by
    intro q hq
    by_contra hlt
    have := (walk_discovered N g st en L s hwf hI hex q en hq (Or.inr (by omega))).2
    omega
  have hpos : 1 ≤ s.dist.getD en INF := by
    obtain ⟨u, _, _, _, _, h5, _⟩ := hI.tree en hen (Ne.symm hse) hD
    omega
  have hcount : g'.count PATH + 2 = p.length := by omega
  refine ⟨g', p, heng,
    ⟨isWalk_of_chain N g st en p hwf p4 (fun w hw => ⟨(p5 w hw).1, (p5 w hw).2.2⟩), p1, p2⟩,
    p6, ?_, hmin, hcount, ?_⟩
  · intro i hi
    rw [p7 i hi]
    constructor
    · intro h
      by_contra hc
      rw [if_neg hc] at h
      exact search_grid_no_path N g st en en L s hI i hi h
    · intro h
      rw [if_pos h]
  · intro hadj
    have hw2 : WalkFromTo N g st en [st, en] := by
      refine ⟨⟨List.chain'_pair.mpr hadj, ?_⟩, rfl, rfl⟩
      intro v hv
      rcases List.mem_cons.mp hv with rfl | hv
      · refine ⟨hst, ?_⟩
        rw [(hS v hst).mpr rfl]; decide
      · rw [List.mem_singleton] at hv
        subst hv
        refine ⟨hen, ?_⟩
        rw [(hE v hen).mpr rfl]; decide
    have := hmin _ hw2
    simp only [List.length_cons, List.length_nil] at this
    omega

/-! ## Walks in a grid without obstacles -/

theorem walk_extend (N : Nat) (g : List CellState) (a w0 b : Nat) (q : List Nat)
    (hq : WalkFromTo N g a w0 q) (hadj : Adj4 N w0 b) (hb : b < N * N)
    (hbo : g.getD b EMPTY ≠ OBSTACLE) : WalkFromTo N g a b (q ++ [b]) := by
  obtain ⟨⟨hch, hall⟩, hh, hl⟩ := hq
  refine ⟨⟨?_, ?_⟩, ?_, ?_⟩
  · rw [List.chain'_append]
    refine ⟨hch, List.chain'_singleton _, ?_⟩
    intro x hx y hy
    rw [hl] at hx
    cases hx
    cases hy
    exact hadj
  · intro v hv
    rcases List.mem_append.mp hv with hv | hv
    · exact hall v hv
    · rw [List.mem_singleton] at hv
      subst hv
      exact ⟨hb, hbo⟩
  · rw [List.head?_append, hh]; rfl
  · rw [List.getLast?_append]; rfl

theorem walk_length_ge_manhattan (N : Nat) (g : List CellState) (a : Nat) :
    ∀ (p : List Nat) (b : Nat), WalkFromTo N g a b p →
      absDiff (a / N) (b / N) + absDiff (a % N) (b % N) + 1 ≤ p.length := by
  intro p
  induction p using List.reverseRecOn with
  | nil =>
    intro b h
    have := h.2.1
    simp at this
  | append_singleton q c ih =>
    intro b hb
    obtain ⟨hbc, _, _, hq0, hq1⟩ := walk_snoc N g a b q c hb
    subst hbc
    rw [List.length_append, List.length_singleton]
    by_cases hq : q = []
    · have := hq0 hq
      subst this
      unfold absDiff
      simp
    · obtain ⟨w0, hw0, hadj⟩ := hq1 hq
      have h1 := ih w0 hw0
      unfold Adj4 at hadj
      unfold absDiff at h1 ⊢
      generalize a / N = ar at *
      generalize a % N = ac at *
      generalize b / N = br at *
      generalize b % N = bc at *
      generalize w0 / N = wr at *
      generalize w0 % N = wc at *
      split_ifs at h1 ⊢ <;> omega

theorem manhattan_walk_exists (N : Nat) (g : List CellState) (a : Nat) (ha : a < N * N)
    (hno : ∀ i, i < N * N → g.getD i EMPTY ≠ OBSTACLE) :
    ∀ (k b : Nat), b < N * N → absDiff (a / N) (b / N) + absDiff (a % N) (b % N) = k →
      ∃ p, WalkFromTo N g a b p ∧ p.length = k + 1 := by
  have hN : 0 < N := by
    rcases Nat.eq_zero_or_pos N with h | h
    · subst h; simp at ha
    · exact h
  intro k
  induction k with
  | zero =>
    intro b hb hk
    have hab : a = b := by
      have h1 := cell_decomp a N
      have h2 := cell_decomp b N
      unfold absDiff at hk
      have h3 : a / N = b / N := by
        generalize a / N = ar at *
        generalize b / N = br at *
        split_ifs at hk <;> omega
      have h4 : a % N = b % N := by
        generalize a % N = ac at *
        generalize b % N = bc at *
        split_ifs at hk <;> omega
      rw [h1, h2, h3, h4]
    subst hab
    refine ⟨[a], ⟨⟨List.chain'_singleton _, ?_⟩, rfl, rfl⟩, rfl⟩
    intro v hv
    rw [List.mem_singleton] at hv
    subst hv
    exact ⟨ha, hno v ha⟩
  | succ k ih =>
    intro b hb hk
    have hbr : b / N < N := div_lt_side b N hb
    have hbc : b % N < N := Nat.mod_lt _ hN
    -- the cell next to `b` that is one step closer to `a`
    have hstep : ∃ r c, r < N ∧ c < N ∧
        absDiff (a / N) r + absDiff (a % N) c = k ∧
        ((r = b / N ∧ (c + 1 = b % N ∨ b % N + 1 = c)) ∨
         (c = b % N ∧ (r + 1 = b / N ∨ b / N + 1 = r))) := by
      have har : a / N < N := div_lt_side a N ha
      have hac : a % N < N := Nat.mod_lt _ hN
      unfold absDiff at hk ⊢
      generalize a / N = ar at *
      generalize a % N = ac at *
      generalize b / N = br at *
      generalize b % N = bc at *
      by_cases h1 : ar < br
      · refine ⟨br - 1, bc, by omega, hbc, ?_, Or.inr ⟨rfl, Or.inl (by omega)⟩⟩
        split_ifs at hk ⊢ <;> omega
      · by_cases h2 : br < ar
        · refine ⟨br + 1, bc, by omega, hbc, ?_, Or.inr ⟨rfl, Or.inr rfl⟩⟩
          split_ifs at hk ⊢ <;> omega
        · by_cases h3 : ac < bc
          · refine ⟨br, bc - 1, hbr, by omega, ?_, Or.inl ⟨rfl, Or.inl (by omega)⟩⟩
            split_ifs at hk ⊢ <;> omega
          · refine ⟨br, bc + 1, hbr, ?_, ?_, Or.inl ⟨rfl, Or.inr rfl⟩⟩
            · split_ifs at hk <;> omega
            · split_ifs at hk ⊢ <;> omega
    obtain ⟨r, c, hr, hc, hm, hadj⟩ := hstep
    obtain ⟨e1, e2⟩ := cell_div_mod r c N hc
    have hb' : r * N + c < N * N := cell_lt r c N hr hc
    obtain ⟨p, hp, hpl⟩ := ih (r * N + c) hb' (by rw [e1, e2]; exact hm)
    refine ⟨p ++ [b], walk_extend N g a (r * N + c) b p hp ?_ hb (hno b hb), ?_⟩
    · unfold Adj4
      rw [e1, e2]
      exact hadj
    · rw [List.length_append, List.length_singleton, hpl]

/-! ## The cells of the returned grid -/

theorem cell_cases_empty (c : CellState) (h1 : clearCell c ≠ OBSTACLE) (h2 : clearCell c ≠ START)
    (h3 : clearCell c ≠ END) : clearCell c = EMPTY := by
  cases c <;> first | rfl | exact absurd rfl h1 | exact absurd rfl h2 | exact absurd rfl h3

theorem run_cells (N : Nat) (g : List CellState) (st en : Nat)
    (hfit : N * N ≤ INF) (hwf : WellFormed N g st en) :
    ∃ s L g', search N g st en = some s ∧ SInv N (clearTransient g) st en en L s ∧
      engine N g st en = some g' ∧ g'.length = N * N ∧
      ∀ i, i < N * N →
        (g'.getD i EMPTY = clearCell (g.getD i EMPTY) ∧
          ¬ (s.dist.getD i INF ≠ INF ∧ i ≠ st ∧ i ≠ en)) ∨
        ((g'.getD i EMPTY = VISITED ∨ g'.getD i EMPTY = PATH) ∧
          (s.dist.getD i INF ≠ INF ∧ i ≠ st ∧ i ≠ en) ∧
          clearCell (g.getD i EMPTY) = EMPTY) := by
  obtain ⟨hlen, hst, hen, hse, hS, hE⟩ := hwf
  obtain ⟨s, L, g', hs, hI, _, heng, hl, hg, hp⟩ := engine_spec N g st en hfit hlen hst hen
  refine ⟨s, L, g', hs, hI, heng, hl, ?_⟩
  intro i hi
  have hm := hI.marks i hi
  by_cases hc : s.dist.getD i INF ≠ INF ∧ i ≠ st ∧ i ≠ en
  · right
    rw [if_pos hc] at hm
    refine ⟨?_, hc, ?_⟩
    · by_cases hD : s.dist.getD en INF = INF
      · rw [hg hD]; exact Or.inl hm
      · obtain ⟨p, _, _, _, _, _, _, p7, _⟩ := hp hD
        rw [p7 i hi]
        split
        · exact Or.inr rfl
        · exact Or.inl hm
    · obtain ⟨_, _, _, _, _, _, _, hpass⟩ := hI.tree i hi hc.2.1 hc.1
      unfold passable at hpass
      rw [getD_clearTransient] at hpass
      apply cell_cases_empty _ hpass.1 hpass.2
      rw [Ne, clearCell_end, hE i hi]
      exact hc.2.2
  · left
    rw [if_neg hc, getD_clearTransient] at hm
    refine ⟨?_, hc⟩
    by_cases hD : s.dist.getD en INF = INF
    · rw [hg hD]; exact hm
    · obtain ⟨p, _, _, _, _, p5, _, p7, _⟩ := hp hD
      rw [p7 i hi, if_neg]
      · exact hm
      · rintro ⟨h1, h2, h3⟩
        exact hc ⟨(p5 i h1).2.1, h2, h3⟩

theorem engine_congr (N : Nat) (g1 g2 : List CellState) (st en : Nat)
    (h : clearTransient g1 = clearTransient g2) : engine N g1 st en = engine N g2 st en := by
  unfold engine search initSearch
  rw [h]

theorem list_ext_getD {α : Type} (l1 l2 : List α) (d : α) (hlen : l1.length = l2.length)
    (h : ∀ i, i < l1.length → l1.getD i d = l2.getD i d) : l1 = l2 := by
  apply List.ext_getElem hlen
  intro i h1 h2
  have := h i h1
  rw [getD_eq_getElem_of_lt l1 i d h1, getD_eq_getElem_of_lt l2 i d h2] at this
  exact this

/-! ## The session state -/

theorem getD_set {α : Type} (l : List α) (k i : Nat) (a d : α) (hk : k < l.length) :
    (l.set k a).getD i d = if i = k then a else l.getD i d := by
  by_cases h : i = k
  · subst h; rw [if_pos rfl]; exact getD_set_self _ _ _ _ hk
  · rw [if_neg h]; exact getD_set_other _ _ _ _ _ (Ne.symm h)

theorem inv_fresh (N : Nat) (s : AppState) (hN : s.gridSize = (N : Int))
    (hg : s.grid = List.replicate (N * N) EMPTY) (hs : s.startIdx = -1) (he : s.endIdx = -1) :
    Inv N s := by
  unfold Inv
  rw [hg, hs, he]
  refine ⟨hN, List.length_replicate _ _, Or.inl rfl, Or.inl rfl, ?_, ?_, ?_⟩
  · intro i hi
    rw [getD_replicate_lt _ _ _ _ hi]
    constructor
    · intro h; cases h
    · intro h; omega
  · intro i hi
    rw [getD_replicate_lt _ _ _ _ hi]
    constructor
    · intro h; cases h
    · intro h; omega
  · intro h; omega

theorem toNat_sq (N : Nat) : ((N : Int) * (N : Int)).toNat = N * N := by
  have : ((N : Int) * (N : Int)) = ((N * N : Nat) : Int) := by push_cast; ring
  rw [this, Int.toNat_natCast]

theorem inv_initial : Inv 20 initialState :=
  inv_fresh 20 initialState rfl (by
    show List.replicate (DEFAULT_GRID_SIZE * DEFAULT_GRID_SIZE).toNat EMPTY = _
    rw [show DEFAULT_GRID_SIZE = ((20 : Nat) : Int) from rfl, toNat_sq]) rfl rfl

theorem inv_resetGrid (N : Nat) (s : AppState) (hN : s.gridSize = (N : Int)) :
    Inv N (resetGrid s) :=
  inv_fresh N (resetGrid s) hN (by
    show List.replicate (s.gridSize * s.gridSize).toNat EMPTY = _
    rw [hN, toNat_sq]) rfl rfl

theorem inv_click (N : Nat) (s : AppState) (idx : Int) (hI : Inv N s)
    (h0 : 0 ≤ idx) (h1 : idx < ((N * N : Nat) : Int)) : Inv N (click s idx) := by
  obtain ⟨k, rfl⟩ := Int.eq_ofNat_of_zero_le h0
  have hk : k < N * N := by omega
  obtain ⟨a1, a2, a3, a4, a5, a6, a7⟩ := hI
  have hkl : k < s.grid.length := by rw [a2]; exact hk
  unfold click
  cases hm : s.mode with
  | MODE_OBSTACLE =>
    simp only
    split
    · rename_i hc
      refine ⟨a1, by simp [a2], a3, a4, ?_, ?_, a7⟩
      · intro i hi
        simp only [Int.toNat_natCast, getD_set _ _ _ _ _ hkl]
        by_cases hik : i = k
        · subst hik
          rw [if_pos rfl]
          have : ((i : Int) = s.startIdx) ↔ False := by simp; exact hc.1
          rw [this]
          split <;> simp
        · rw [if_neg hik]; exact a5 i hi
      · intro i hi
        simp only [Int.toNat_natCast, getD_set _ _ _ _ _ hkl]
        by_cases hik : i = k
        · subst hik
          rw [if_pos rfl]
          have : ((i : Int) = s.endIdx) ↔ False := by simp; exact hc.2
          rw [this]
          split <;> simp
        · rw [if_neg hik]; exact a6 i hi
    · exact ⟨a1, a2, a3, a4, a5, a6, a7⟩
  | MODE_START =>
    simp only
    split
    · rename_i hc
      have hl1 : (if s.startIdx ≥ 0 then s.grid.set s.startIdx.toNat EMPTY else s.grid).length
          = N * N := by
        split
        · rw [List.length_set]; exact a2
        · exact a2
      have hg1 : ∀ i, i < N * N → i ≠ k →
          ((if s.startIdx ≥ 0 then s.grid.set s.startIdx.toNat EMPTY else s.grid).getD i EMPTY
            = if (i : Int) = s.startIdx then EMPTY else s.grid.getD i EMPTY) := by
        intro i hi _
        split
        · rename_i hs
          have hsl : s.startIdx.toNat < s.grid.length := by rw [a2]; omega
          rw [getD_set _ _ _ _ _ hsl]
          by_cases h : i = s.startIdx.toNat
          · rw [if_pos h, if_pos (by omega)]
          · rw [if_neg h, if_neg (by omega)]
        · rw [if_neg (by omega)]
      refine ⟨a1, by simp [hl1], Or.inr ⟨h0, h1⟩, a4, ?_, ?_, ?_⟩
      · intro i hi
        simp only [Int.toNat_natCast]
        rw [getD_set _ _ _ _ _ (by rw [hl1]; exact hk)]
        by_cases hik : i = k
        · subst hik; simp
        · rw [if_neg hik, hg1 i hi hik]
          have h5 := a5 i hi
          split
          · simp; omega
          · rw [h5]; omega
      · intro i hi
        simp only [Int.toNat_natCast]
        rw [getD_set _ _ _ _ _ (by rw [hl1]; exact hk)]
        by_cases hik : i = k
        · subst hik
          rw [if_pos rfl]
          simp
          exact hc
        · rw [if_neg hik, hg1 i hi hik]
          split
          · rename_i hs
            have : ¬ ((i : Int) = s.endIdx) := by
              intro he
              exact a7 (by omega) (by omega) (by omega)
            simp [this]
          · exact a6 i hi
      · intro _ _
        exact hc
    · exact ⟨a1, a2, a3, a4, a5, a6, a7⟩
  | MODE_END =>
    simp only
    split
    · rename_i hc
      have hl1 : (if s.endIdx ≥ 0 then s.grid.set s.endIdx.toNat EMPTY else s.grid).length
          = N * N := by
        split
        · rw [List.length_set]; exact a2
        · exact a2
      have hg1 : ∀ i, i < N * N → i ≠ k →
          ((if s.endIdx ≥ 0 then s.grid.set s.endIdx.toNat EMPTY else s.grid).getD i EMPTY
            = if (i : Int) = s.endIdx then EMPTY else s.grid.getD i EMPTY) := by
        intro i hi _
        split
        · rename_i hs
          have hsl : s.endIdx.toNat < s.grid.length := by rw [a2]; omega
          rw [getD_set _ _ _ _ _ hsl]
          by_cases h : i = s.endIdx.toNat
          · rw [if_pos h, if_pos (by omega)]
          · rw [if_neg h, if_neg (by omega)]
        · rw [if_neg (by omega)]
      refine ⟨a1, by simp [hl1], a3, Or.inr ⟨h0, h1⟩, ?_, ?_, ?_⟩
      · intro i hi
        simp only [Int.toNat_natCast]
        rw [getD_set _ _ _ _ _ (by rw [hl1]; exact hk)]
        by_cases hik : i = k
        · subst hik
          rw [if_pos rfl]
          simp
          exact hc
        · rw [if_neg hik, hg1 i hi hik]
          split
          · rename_i hs
            have : ¬ ((i : Int) = s.startIdx) := by
              intro he
              exact a7 (by omega) (by omega) (by omega)
            simp [this]
          · exact a5 i hi
      · intro i hi
        simp only [Int.toNat_natCast]
        rw [getD_set _ _ _ _ _ (by rw [hl1]; exact hk)]
        by_cases hik : i = k
        · subst hik; simp
        · rw [if_neg hik, hg1 i hi hik]
          have h6 := a6 i hi
          split
          · simp; omega
          · rw [h6]; omega
      · intro _ _ h
        exact hc h.symm
    · exact ⟨a1, a2, a3, a4, a5, a6, a7⟩
  | MODE_ERASE =>
    simp only
    by_cases hs : (k : Int) = s.startIdx
    · by_cases he : (k : Int) = s.endIdx
      · exact absurd (hs.symm.trans he) (a7 (by omega) (by omega))
      · rw [if_pos hs]
        simp only
        rw [if_neg he]
        refine ⟨a1, by simp [a2], Or.inl rfl, a4, ?_, ?_, ?_⟩
        · intro i hi
          simp only [Int.toNat_natCast, getD_set _ _ _ _ _ hkl]
          by_cases hik : i = k
          · subst hik; simp
          · rw [if_neg hik, a5 i hi]
            constructor
            · intro h; omega
            · intro h; omega
        · intro i hi
          simp only [Int.toNat_natCast, getD_set _ _ _ _ _ hkl]
          by_cases hik : i = k
          · subst hik; simp; exact he
          · rw [if_neg hik]; exact a6 i hi
        · intro h; simp at h
    · rw [if_neg hs]
      by_cases he : (k : Int) = s.endIdx
      · rw [if_pos he]
        refine ⟨a1, by simp [a2], a3, Or.inl rfl, ?_, ?_, ?_⟩
        · intro i hi
          simp only [Int.toNat_natCast, getD_set _ _ _ _ _ hkl]
          by_cases hik : i = k
          · subst hik; simp; exact hs
          · rw [if_neg hik]; exact a5 i hi
        · intro i hi
          simp only [Int.toNat_natCast, getD_set _ _ _ _ _ hkl]
          by_cases hik : i = k
          · subst hik; simp
          · rw [if_neg hik, a6 i hi]
            constructor
            · intro h; omega
            · intro h; omega
        · intro _ h; simp at h
      · rw [if_neg he]
        refine ⟨a1, by simp [a2], a3, a4, ?_, ?_, a7⟩
        · intro i hi
          simp only [Int.toNat_natCast, getD_set _ _ _ _ _ hkl]
          by_cases hik : i = k
          · subst hik; simp; exact hs
          · rw [if_neg hik]; exact a5 i hi
        · intro i hi
          simp only [Int.toNat_natCast, getD_set _ _ _ _ _ hkl]
          by_cases hik : i = k
          · subst hik; simp; exact he
          · rw [if_neg hik]; exact a6 i hi

theorem inv_congr (N : Nat) (s t : AppState) (hI : Inv N s) (h1 : t.gridSize = s.gridSize)
    (h2 : t.grid = s.grid) (h3 : t.startIdx = s.startIdx) (h4 : t.endIdx = s.endIdx) :
    Inv N t := by
  unfold Inv at hI ⊢
  rw [h1, h2, h3, h4]
  exact hI

theorem inv_resize (N : Nat) (s : AppState) (n : Nat) (hI : Inv N s)
    (hp : s.prevSize ≠ (n : Int) ∨ s.prevSize = s.gridSize) : Inv n (resize s (n : Int)) := by
  unfold resize resizeCheck moveSlider
  simp only
  split
  · exact inv_fresh n _ rfl (by
      show List.replicate ((n : Int) * (n : Int)).toNat EMPTY = _
      rw [toNat_sq]) rfl rfl
  · rename_i h
    simp only [ne_eq, Decidable.not_not] at h
    rcases hp with hp | hp
    · exact absurd h hp
    · have hn : (n : Int) = (N : Int) := by
        have := hI.1
        rw [← h, hp, this]
      have hnN : n = N := by omega
      subst hnN
      exact inv_congr n s _ hI hI.1.symm rfl rfl rfl

theorem inv_wf (N : Nat) (s : AppState) (hI : Inv N s) (h0 : 0 ≤ s.startIdx)
    (h1 : 0 ≤ s.endIdx) : WellFormed N s.grid s.startIdx.toNat s.endIdx.toNat := by
  obtain ⟨_, a2, a3, a4, a5, a6, a7⟩ := hI
  have := a7 h0 h1
  refine ⟨a2, by omega, by omega, by omega, ?_, ?_⟩
  · intro i hi
    rw [a5 i hi]; omega
  · intro i hi
    rw [a6 i hi]; omega

theorem engineBlock_skip (s : AppState)
    (h : ¬ (s.runDijkstra = true ∧ s.startIdx ≥ 0 ∧ s.endIdx ≥ 0)) :
    engineBlock s = some s := by
  unfold engineBlock
  rw [if_neg h]

theorem engineBlock_run (N : Nat) (s : AppState) (hfit : N * N ≤ INF) (hI : Inv N s)
    (hr : s.runDijkstra = true) (h0 : 0 ≤ s.startIdx) (h1 : 0 ≤ s.endIdx) :
    ∃ g', engine N s.grid s.startIdx.toNat s.endIdx.toNat = some g' ∧
      engineBlock s = some { s with grid := g', runDijkstra := false } ∧
      g'.length = N * N ∧
      ∀ i, i < N * N →
        (g'.getD i EMPTY = clearCell (s.grid.getD i EMPTY) ∧
          (s.grid.getD i EMPTY = START ∨ s.grid.getD i EMPTY = END ∨
            (g'.getD i EMPTY ≠ VISITED ∧ g'.getD i EMPTY ≠ PATH))) ∨
        ((g'.getD i EMPTY = VISITED ∨ g'.getD i EMPTY = PATH) ∧
          (i : Int) ≠ s.startIdx ∧ (i : Int) ≠ s.endIdx ∧
          clearCell (s.grid.getD i EMPTY) = EMPTY) := by
  have hwf := inv_wf N s hI h0 h1
  obtain ⟨_, _, g', _, _, heng, hl, hc⟩ :=
    run_cells N s.grid s.startIdx.toNat s.endIdx.toNat hfit hwf
  refine ⟨g', heng, ?_, hl, ?_⟩
  · unfold engineBlock
    rw [if_pos ⟨hr, h0, h1⟩]
    have hN : s.gridSize.toNat = N := by rw [hI.1]; exact Int.toNat_natCast N
    rw [hN, heng]
  · intro i hi
    rcases hc i hi with ⟨c1, _⟩ | ⟨c1, c2, c3⟩
    · left
      refine ⟨c1, ?_⟩
      right; right
      rw [c1]
      exact ⟨clearCell_not_visited _, clearCell_not_path _⟩
    · right
      exact ⟨c1, by omega, by omega, c3⟩

theorem inv_engineBlock (N : Nat) (s : AppState) (hfit : N * N ≤ INF) (hI : Inv N s) :
    ∃ s', engineBlock s = some s' ∧ Inv N s' ∧ s'.gridSize = s.gridSize ∧
      s'.prevSize = s.prevSize := by
  by_cases h : s.runDijkstra = true ∧ s.startIdx ≥ 0 ∧ s.endIdx ≥ 0
  · obtain ⟨g', _, hb, hl, hc⟩ := engineBlock_run N s hfit hI h.1 h.2.1 h.2.2
    refine ⟨_, hb, ?_, rfl, rfl⟩
    obtain ⟨a1, a2, a3, a4, a5, a6, a7⟩ := hI
    refine ⟨a1, hl, a3, a4, ?_, ?_, a7⟩
    · intro i hi
      show g'.getD i EMPTY = START ↔ (i : Int) = s.startIdx
      rcases hc i hi with ⟨c1, _⟩ | ⟨c1, c2, _, _⟩
      · rw [c1, clearCell_start]; exact a5 i hi
      · constructor
        · intro h; rcases c1 with c | c <;> rw [c] at h <;> cases h
        · intro h; exact absurd h c2
    · intro i hi
      show g'.getD i EMPTY = END ↔ (i : Int) = s.endIdx
      rcases hc i hi with ⟨c1, _⟩ | ⟨c1, _, c3, _⟩
      · rw [c1, clearCell_end]; exact a6 i hi
      · constructor
        · intro h; rcases c1 with c | c <;> rw [c] at h <;> cases h
        · intro h; exact absurd h c3
  · exact ⟨s, engineBlock_skip s h, hI, rfl, rfl⟩

theorem click_sizes (s : AppState) (idx : Int) :
    (click s idx).gridSize = s.gridSize ∧ (click s idx).prevSize = s.prevSize := by
  unfold click
  cases s.mode <;> simp only <;> split <;> (try split) <;> exact ⟨rfl, rfl⟩

theorem cell_index_range (n : Nat) (r c : Int) (hr0 : 0 ≤ r) (hr : r < (n : Int))
    (hc0 : 0 ≤ c) (hc : c < (n : Int)) :
    0 ≤ r * (n : Int) + c ∧ r * (n : Int) + c < ((n * n : Nat) : Int) := by
  obtain ⟨a, rfl⟩ := Int.eq_ofNat_of_zero_le hr0
  obtain ⟨b, rfl⟩ := Int.eq_ofNat_of_zero_le hc0
  have h := cell_lt a b n (by omega) (by omega)
  have e : (a : Int) * (n : Int) + (b : Int) = ((a * n + b : Nat) : Int) := by push_cast; ring
  rw [e]
  omega

theorem controls_inv (N : Nat) (s : AppState) (i : FrameInput) (hF : FrameInv N s)
    (hsl : ∀ n, i.slider = some n → 5 ≤ n ∧ n ≤ 50) :
    ∃ M : Nat, i.slider.getD s.gridSize = (M : Int) ∧ FrameInv M (controls s i) := by
  obtain ⟨hI, hN5, hN50, hp⟩ := hF
  have hgs : s.gridSize = (N : Int) := hI.1
  obtain ⟨M, hM, hM5, hM50⟩ :
      ∃ M : Nat, i.slider.getD s.gridSize = (M : Int) ∧ 5 ≤ M ∧ M ≤ 50 := by
    cases hsv : i.slider with
    | none => exact ⟨N, by simp [hgs], hN5, hN50⟩
    | some n =>
      obtain ⟨h1, h2⟩ := hsl n hsv
      obtain ⟨M, rfl⟩ := Int.eq_ofNat_of_zero_le (by omega : (0 : Int) ≤ n)
      exact ⟨M, by simp, by omega, by omega⟩
  refine ⟨M, hM, ?_, hM5, hM50, ?_⟩
  all_goals
    unfold controls
    have hI1 : Inv N (selectMode s i.modeSel) ∧ (selectMode s i.modeSel).prevSize = (N : Int) ∧
        (selectMode s i.modeSel).gridSize = (N : Int) := by
      unfold selectMode
      cases i.modeSel with
      | none => exact ⟨hI, by rw [hp, hgs], hgs⟩
      | some m =>
        exact ⟨inv_congr N s _ hI rfl rfl rfl rfl, by show s.prevSize = _; rw [hp, hgs], hgs⟩
    generalize selectMode s i.modeSel = s1 at hI1 ⊢
    have hI2 : (moveSlider s1 i.slider).gridSize = (M : Int) ∧
        (moveSlider s1 i.slider).prevSize = (N : Int) ∧
        (M = N → Inv N (moveSlider s1 i.slider)) := by
      unfold moveSlider
      cases hsv : i.slider with
      | none =>
        rw [hsv] at hM
        simp only [Option.getD_none] at hM
        exact ⟨by rw [hI1.2.2]; omega, hI1.2.1, fun _ => hI1.1⟩
      | some n =>
        rw [hsv] at hM
        simp only [Option.getD_some] at hM
        refine ⟨hM, hI1.2.1, fun h => inv_congr N s1 _ hI1.1 ?_ rfl rfl rfl⟩
        show n = s1.gridSize
        rw [hM, hI1.2.2, h]
    generalize moveSlider s1 i.slider = s2 at hI2 ⊢
    have hI3 : (pressReset s2 i.resetPressed).gridSize = (M : Int) ∧
        (pressReset s2 i.resetPressed).prevSize = (N : Int) ∧
        (M = N → Inv N (pressReset s2 i.resetPressed)) := by
      unfold pressReset
      split
      · exact ⟨hI2.1, hI2.2.1, fun h => inv_resetGrid N s2 (by rw [hI2.1, h])⟩
      · exact hI2
    generalize pressReset s2 i.resetPressed = s3 at hI3 ⊢
    have hI4 : (pressRun s3 i.runPressed).gridSize = (M : Int) ∧
        (pressRun s3 i.runPressed).prevSize = (N : Int) ∧
        (M = N → Inv N (pressRun s3 i.runPressed)) := by
      unfold pressRun
      split
      · exact ⟨hI3.1, hI3.2.1, fun h => inv_congr N s3 _ (hI3.2.2 h) rfl rfl rfl rfl⟩
      · exact hI3
    generalize pressRun s3 i.runPressed = s4 at hI4 ⊢
    obtain ⟨hg4, hp4, hI4⟩ := hI4
  · show Inv M (resizeCheck s4)
    unfold resizeCheck
    split
    · refine inv_fresh M _ hg4 ?_ rfl rfl
      show List.replicate (s4.gridSize * s4.gridSize).toNat EMPTY = _
      rw [hg4, toNat_sq]
    · rename_i hne
      simp only [ne_eq, Decidable.not_not] at hne
      have hMN : M = N := by
        rw [hp4, hg4] at hne
        omega
      subst hMN
      exact hI4 rfl
  · show (resizeCheck s4).prevSize = (resizeCheck s4).gridSize
    unfold resizeCheck
    split
    · rfl
    · rename_i hne
      simp only [ne_eq, Decidable.not_not] at hne
      exact hne

theorem frame_inv (N : Nat) (s : AppState) (i : FrameInput) (hF : FrameInv N s)
    (hin : InputOk s i) : ∃ s' N', frame s i = some s' ∧ FrameInv N' s' := by
  obtain ⟨hsl, hcl⟩ := hin
  obtain ⟨M, hM, hI5, hM5, hM50, hp5⟩ := controls_inv N s i hF hsl
  have hfit : M * M ≤ INF := by
    have : M * M ≤ 50 * 50 := Nat.mul_le_mul hM50 hM50
    unfold INF; omega
  obtain ⟨s6, e6, hI6, hg6, hp6⟩ := inv_engineBlock M (controls s i) hfit hI5
  unfold frame
  rw [e6]
  simp only
  cases hcv : i.clicked with
  | none => exact ⟨s6, M, rfl, hI6, hM5, hM50, by rw [hp6, hg6, hp5]⟩
  | some rc =>
    obtain ⟨c1, c2, c3, c4⟩ := hcl rc hcv
    rw [hM] at c2 c4
    have hr := cell_index_range M rc.1 rc.2 c1 c2 c3 c4
    have hg6' : s6.gridSize = (M : Int) := hI6.1
    refine ⟨_, M, rfl, inv_click M s6 _ hI6 (by rw [hg6']; exact hr.1) (by rw [hg6']; exact hr.2),
      hM5, hM50, ?_⟩
    obtain ⟨k1, k2⟩ := click_sizes s6 (rc.1 * s6.gridSize + rc.2)
    rw [k1, k2, hp6, hg6, hp5]

theorem not_reachable_of_region (N : Nat) (g : List CellState) (a b : Nat) (S : List Nat)
    (ha : a ∈ S) (hb : b ∉ S)
    (hS : ∀ u ∈ S, ∀ v, v < N * N → Adj4 N u v → g.getD v EMPTY ≠ OBSTACLE → v ∈ S) :
    ¬ Reachable N g a b := by
  have key : ∀ (p : List Nat) (w : Nat), WalkFromTo N g a w p → w ∈ S := by
    intro p
    induction p using List.reverseRecOn with
    | nil =>
      intro w h
      have := h.2.1
      simp at this
    | append_singleton q c ih =>
      intro w hw
      obtain ⟨hwc, hcN, hco, hq0, hq1⟩ := walk_snoc N g a w q c hw
      subst hwc
      by_cases hq : q = []
      · rw [← hq0 hq]; exact ha
      · obtain ⟨w0, hw0, hadj⟩ := hq1 hq
        exact hS w0 (ih w0 hw0) w hcN hadj hco
  rintro ⟨p, hp⟩
  exact hb (key p b hp)


/-! ## The claims -/

/-- C1: on a well-formed grid in which End can be reached from Start through
4-adjacent non-obstacle cells, the run returns a grid whose PATH cells are
exactly the interior cells of a walk `p` from Start to End that repeats no
cell and is no longer than any other walk from Start to End; the number of
PATH cells is the hop count `p.length - 1` of that shortest walk minus one,
and it is zero when Start and End are adjacent. -/
theorem engine_marks_shortest_path (N : Nat) (g : List CellState) (st en : Nat)
    (hfit : N * N ≤ INF) (hwf : WellFormed N g st en) (hreach : Reachable N g st en) :
    ∃ g' p, engine N g st en = some g' ∧ WalkFromTo N g st en p ∧ p.Nodup ∧
      (∀ i, i < N * N → (g'.getD i EMPTY = PATH ↔ i ∈ p ∧ i ≠ st ∧ i ≠ en)) ∧
      (∀ q, WalkFromTo N g st en q → p.length ≤ q.length) ∧
      g'.count PATH + 2 = p.length ∧
      (Adj4 N st en → g'.count PATH = 0) :=
  run_shortest_path N g st en hfit hwf hreach

/-- C1 at the 3×3 grid with Start (0,0) next to End (0,1). -/
theorem engine_marks_shortest_path_witness :
    ∃ g' p, engine 3 grid3 0 1 = some g' ∧ WalkFromTo 3 grid3 0 1 p ∧ p.Nodup ∧
      (∀ i, i < 3 * 3 → (g'.getD i EMPTY = PATH ↔ i ∈ p ∧ i ≠ 0 ∧ i ≠ 1)) ∧
      (∀ q, WalkFromTo 3 grid3 0 1 q → p.length ≤ q.length) ∧
      g'.count PATH + 2 = p.length ∧
      (Adj4 3 0 1 → g'.count PATH = 0) :=
  engine_marks_shortest_path 3 grid3 0 1 (by decide) (by decide) ⟨[0, 1], by decide⟩

/-- C2: on a well-formed grid without obstacles, with Start at row `r1`, column
`c1` and End at row `r2`, column `c2`, the run returns a grid whose number of
PATH cells plus one (the hop count of the reported path) is
`|r1 - r2| + |c1 - c2|`. -/
theorem engine_path_is_manhattan (N : Nat) (g : List CellState) (r1 c1 r2 c2 : Nat)
    (hfit : N * N ≤ INF) (hc1 : c1 < N) (hc2 : c2 < N)
    (hwf : WellFormed N g (r1 * N + c1) (r2 * N + c2))
    (hno : ∀ i, i < N * N → g.getD i EMPTY ≠ OBSTACLE) :
    ∃ g', engine N g (r1 * N + c1) (r2 * N + c2) = some g' ∧
      g'.count PATH + 1 = absDiff r1 r2 + absDiff c1 c2 := by
  obtain ⟨a1, a2⟩ := cell_div_mod r1 c1 N hc1
  obtain ⟨b1, b2⟩ := cell_div_mod r2 c2 N hc2
  obtain ⟨q, hq, hql⟩ := manhattan_walk_exists N g (r1 * N + c1) hwf.2.1 hno
    (absDiff r1 r2 + absDiff c1 c2) (r2 * N + c2) hwf.2.2.1 (by rw [a1, a2, b1, b2])
  obtain ⟨g', p, heng, hp, _, _, hmin, hcount, _⟩ :=
    run_shortest_path N g (r1 * N + c1) (r2 * N + c2) hfit hwf ⟨q, hq⟩
  refine ⟨g', heng, ?_⟩
  have h1 := hmin q hq
  have h2 := walk_length_ge_manhattan N g (r1 * N + c1) p (r2 * N + c2) hp
  rw [a1, a2, b1, b2] at h2
  omega

/-- C2 at the 5×5 grid with Start (0,0) and End (4,4): 7 PATH cells, 8 hops. -/
theorem engine_path_is_manhattan_witness :
    ∃ g', engine 5 grid5 (0 * 5 + 0) (4 * 5 + 4) = some g' ∧ g'.count PATH + 1 = 8 :=
  engine_path_is_manhattan 5 grid5 0 0 4 4 (by decide) (by decide) (by decide) (by decide)
    (by decide)

/-- C3: on a well-formed grid in which End cannot be reached from Start, the
run returns a grid with no PATH cell, in which every cell other than Start that
can be reached from Start is VISITED and no cell that cannot be reached from
Start is VISITED. -/
theorem engine_flood_fill_when_unreachable (N : Nat) (g : List CellState) (st en : Nat)
    (hfit : N * N ≤ INF) (hwf : WellFormed N g st en) (hun : ¬ Reachable N g st en) :
    ∃ g', engine N g st en = some g' ∧
      (∀ i, i < N * N → g'.getD i EMPTY ≠ PATH) ∧
      (∀ i, i < N * N → i ≠ st → Reachable N g st i → g'.getD i EMPTY = VISITED) ∧
      (∀ i, i < N * N → ¬ Reachable N g st i → g'.getD i EMPTY ≠ VISITED) := by
  obtain ⟨hlen, hst, hen, hse, hS, hE⟩ := hwf
  have hwf : WellFormed N g st en := ⟨hlen, hst, hen, hse, hS, hE⟩
  obtain ⟨s, L, g', _, hI, hex, heng, _, hg, _⟩ := engine_spec N g st en hfit hlen hst hen
  have hD : s.dist.getD en INF = INF := by
    by_contra h
    exact hun (discovered_reachable N g st en en L s hwf hI en hen h)
  have hg' := hg hD
  subst hg'
  refine ⟨s.grid, heng, search_grid_no_path N g st en en L s hI, ?_, ?_⟩
  · intro i hi his hr
    obtain ⟨q, hq⟩ := hr
    have hDi := (walk_discovered N g st en L s hwf hI hex q i hq (Or.inl hD)).1
    have hie : i ≠ en := by
      intro h; rw [h] at hDi; exact hDi hD
    rw [hI.marks i hi, if_pos ⟨hDi, his, hie⟩]
  · intro i hi hr hv
    rw [hI.marks i hi] at hv
    split at hv
    · rename_i hc
      exact hr (discovered_reachable N g st en en L s hwf hI i hi hc.1)
    · rw [getD_clearTransient] at hv
      exact clearCell_not_visited _ hv

/-- C3 at the 3×3 grid whose middle row is a wall between Start and End. -/
theorem engine_flood_fill_when_unreachable_witness :
    ∃ g', engine 3 gridWall 0 8 = some g' ∧
      (∀ i, i < 3 * 3 → g'.getD i EMPTY ≠ PATH) ∧
      (∀ i, i < 3 * 3 → i ≠ 0 → Reachable 3 gridWall 0 i → g'.getD i EMPTY = VISITED) ∧
      (∀ i, i < 3 * 3 → ¬ Reachable 3 gridWall 0 i → g'.getD i EMPTY ≠ VISITED) :=
  engine_flood_fill_when_unreachable 3 gridWall 0 8 (by decide) (by decide)
    (not_reachable_of_region 3 gridWall 0 8 [0, 1, 2] (by decide) (by decide) (by decide))

/-- C4 (the code departs from the claim): in the six frames `lateEndFrames`
from the initial state, `Run Dijkstra` is pressed once, in the third frame,
while End is unset; after that frame the grid holds only the Start mark and the
request is still pending; End is placed in the fifth frame with no further
press; and after the sixth frame cell (1,0) is VISITED. -/
theorem pending_run_fires_after_end_is_placed :
    (lateEndFrames.map fun i => i.runPressed) = [false, false, true, false, false, false] ∧
    (frames initialState (lateEndFrames.take 3)).map
        (fun s => (decide (s.grid = initialState.grid.set 0 START), s.startIdx, s.endIdx,
          s.runDijkstra)) = some (true, 0, -1, true) ∧
    (frames initialState (lateEndFrames.take 5)).map
        (fun s => (s.grid.count VISITED, s.grid.count PATH, s.endIdx, s.runDijkstra)) =
      some (0, 0, 1, true) ∧
    (frames initialState lateEndFrames).map
        (fun s => (s.grid.getD 20 EMPTY, s.runDijkstra)) = some (VISITED, false) := by
  set_option maxRecDepth 100000 in decide

/-- C5: the grid invariant `Inv` holds in the initial state and, from a state
`s` in which it holds for side `N`, it holds after a click at any in-range
index in each placement mode, after Reset Grid, after the slider is moved to
any side `n` and the resize check has run (the value differs from `prevSize`,
or `prevSize` equals `gridSize` as at every frame boundary), and after the run
block; and a whole frame with admissible input keeps the frame-boundary
invariant. -/
theorem grid_invariant_preserved (N : Nat) (s : AppState) (hI : Inv N s) :
    Inv 20 initialState ∧
    (∀ (m : PlacementMode) (idx : Int), 0 ≤ idx → idx < ((N * N : Nat) : Int) →
      Inv N (click { s with mode := m } idx)) ∧
    Inv N (resetGrid s) ∧
    (∀ n : Nat, s.prevSize ≠ (n : Int) ∨ s.prevSize = s.gridSize →
      Inv n (resize s (n : Int))) ∧
    (N * N ≤ INF → ∃ s', engineBlock s = some s' ∧ Inv N s') ∧
    (∀ i : FrameInput, 5 ≤ N → N ≤ 50 → s.prevSize = s.gridSize → InputOk s i →
      ∃ s' N', frame s i = some s' ∧ FrameInv N' s') := by
  refine ⟨inv_initial, ?_, inv_resetGrid N s hI.1, ?_, ?_, ?_⟩
  · intro m idx h0 h1
    exact inv_click N _ idx (inv_congr N s _ hI rfl rfl rfl rfl) h0 h1
  · intro n hp
    exact inv_resize N s n hI hp
  · intro hfit
    obtain ⟨s', h1, h2, _⟩ := inv_engineBlock N s hfit hI
    exact ⟨s', h1, h2⟩
  · intro i h5 h50 hp hin
    exact frame_inv N s i ⟨hI, h5, h50, hp⟩ hin

/-- C5 at the session on the 5×5 grid: the invariant after a click in Start
mode on cell 7, after a resize to side 6, and after the run block. -/
theorem grid_invariant_preserved_witness :
    Inv 5 session5 ∧ Inv 5 (click { session5 with mode := MODE_START } 7) ∧
    Inv 6 (resize session5 ((6 : Nat) : Int)) ∧
    ∃ s', engineBlock session5 = some s' ∧ Inv 5 s' :=
  ⟨by decide,
    (grid_invariant_preserved 5 session5 (by decide)).2.1 MODE_START 7 (by decide) (by decide),
    (grid_invariant_preserved 5 session5 (by decide)).2.2.2.1 6 (Or.inl (by decide)),
    (grid_invariant_preserved 5 session5 (by decide)).2.2.2.2.1 (by decide)⟩

/-- C6: on a well-formed grid the run returns a grid on which a second run
returns the same grid. -/
theorem engine_idempotent (N : Nat) (g : List CellState) (st en : Nat)
    (hfit : N * N ≤ INF) (hwf : WellFormed N g st en) :
    ∃ g', engine N g st en = some g' ∧ engine N g' st en = some g' := by
  obtain ⟨s, L, g', _, _, heng, hl, hc⟩ := run_cells N g st en hfit hwf
  refine ⟨g', heng, ?_⟩
  rw [← heng]
  apply engine_congr
  unfold clearTransient
  apply list_ext_getD _ _ EMPTY
  · rw [List.length_map, List.length_map, hl, hwf.1]
  · intro i hi
    rw [List.length_map, hl] at hi
    have e1 := getD_clearTransient g' i
    have e2 := getD_clearTransient g i
    unfold clearTransient at e1 e2
    rw [e1, e2]
    rcases hc i hi with ⟨h1, _⟩ | ⟨h1, _, h3⟩
    · rw [h1, clearCell_idem]
    · rw [h3]
      rcases h1 with h | h <;> rw [h] <;> rfl

/-- C6 at the 5×5 grid with Start (0,0) and End (4,4). -/
theorem engine_idempotent_witness :
    ∃ g', engine 5 grid5 0 24 = some g' ∧ engine 5 g' 0 24 = some g' :=
  engine_idempotent 5 grid5 0 24 (by decide) (by decide)

/-- C7 as stated fails: on the 3×3 grid with Start (0,0) and End (0,1), which
is well-formed, the frontier loop expands Start only, then extracts End and
stops; cell (1,0) is VISITED after the run although it was never expanded, so
the marked cells are not exactly the expanded nodes other than Start and End. -/
theorem visited_cell_never_expanded :
    WellFormed 3 grid3 0 1 ∧
    ∃ s g', search 3 grid3 0 1 = some s ∧ engine 3 grid3 0 1 = some g' ∧
      s.trace = [Event.expand 0, Event.goal 1] ∧ g'.getD 3 EMPTY = VISITED ∧
      ¬ (∀ i, i < 3 * 3 →
        ((g'.getD i EMPTY = VISITED ∨ g'.getD i EMPTY = PATH) ↔
          (Event.expand i ∈ s.trace ∧ i ≠ 0 ∧ i ≠ 1))) := by
  refine ⟨by decide, _, _, rfl, rfl, ?_, ?_, ?_⟩ <;> decide

/-- C7 amended: on a well-formed grid, after the run the cells marked VISITED
or PATH are exactly the nodes pushed onto the frontier other than Start and
End; every node the loop expanded was pushed and is not End, so every expanded
node other than Start is marked. -/
theorem marked_cells_are_pushed_nodes (N : Nat) (g : List CellState) (st en : Nat)
    (hfit : N * N ≤ INF) (hwf : WellFormed N g st en) :
    ∃ s g', search N g st en = some s ∧ engine N g st en = some g' ∧
      (∀ i, i < N * N →
        ((g'.getD i EMPTY = VISITED ∨ g'.getD i EMPTY = PATH) ↔
          (i ∈ s.pushed ∧ i ≠ st ∧ i ≠ en))) ∧
      (∀ u, Event.expand u ∈ s.trace → u ∈ s.pushed ∧ u ≠ en) := by
  obtain ⟨s, L, g', hs, hI, heng, _, hc⟩ := run_cells N g st en hfit hwf
  refine ⟨s, g', hs, heng, ?_, ?_⟩
  · intro i hi
    rw [hI.pushed_iff]
    rcases hc i hi with ⟨c1, c2⟩ | ⟨c1, c2, _⟩
    · constructor
      · intro h
        rw [c1] at h
        rcases h with h | h
        · exact absurd h (clearCell_not_visited _)
        · exact absurd h (clearCell_not_path _)
      · rintro ⟨⟨_, h1⟩, h2, h3⟩
        exact absurd ⟨h1, h2, h3⟩ c2
    · exact ⟨fun _ => ⟨⟨hi, c2.1⟩, c2.2.1, c2.2.2⟩, fun _ => c1⟩
  · intro u hu
    rcases hI.trace_ok _ hu with h | ⟨u', h1, h2, h3⟩
    · cases h
    · cases h1
      exact ⟨h3, h2⟩

/-- C7 amended, at the 3×3 grid with Start (0,0) and End (0,1). -/
theorem marked_cells_are_pushed_nodes_witness :
    ∃ s g', search 3 grid3 0 1 = some s ∧ engine 3 grid3 0 1 = some g' ∧
      (∀ i, i < 3 * 3 →
        ((g'.getD i EMPTY = VISITED ∨ g'.getD i EMPTY = PATH) ↔
          (i ∈ s.pushed ∧ i ≠ 0 ∧ i ≠ 1))) ∧
      (∀ u, Event.expand u ∈ s.trace → u ∈ s.pushed ∧ u ≠ 1) :=
  marked_cells_are_pushed_nodes 3 grid3 0 1 (by decide) (by decide)

/-- C8: from a well-formed state with Start and End set and a run requested,
the run block returns a state with the same `startIdx`, `endIdx`, `gridSize`
and number of cells, in which every cell that was OBSTACLE, START or END is
unchanged, every changed cell was EMPTY, VISITED or PATH, and the Start and End
cells still hold START and END. -/
theorem engine_run_frame (N : Nat) (s : AppState) (hfit : N * N ≤ INF) (hI : Inv N s)
    (hr : s.runDijkstra = true) (h0 : 0 ≤ s.startIdx) (h1 : 0 ≤ s.endIdx) :
    ∃ s', engineBlock s = some s' ∧ s'.startIdx = s.startIdx ∧ s'.endIdx = s.endIdx ∧
      s'.gridSize = s.gridSize ∧ s'.grid.length = s.grid.length ∧
      (∀ i, i < N * N →
        (s.grid.getD i EMPTY = OBSTACLE ∨ s.grid.getD i EMPTY = START ∨
          s.grid.getD i EMPTY = END) →
        s'.grid.getD i EMPTY = s.grid.getD i EMPTY) ∧
      (∀ i, i < N * N → s'.grid.getD i EMPTY ≠ s.grid.getD i EMPTY →
        (s.grid.getD i EMPTY = EMPTY ∨ s.grid.getD i EMPTY = VISITED ∨
          s.grid.getD i EMPTY = PATH)) ∧
      s'.grid.getD s.startIdx.toNat EMPTY = START ∧
      s'.grid.getD s.endIdx.toNat EMPTY = END := by
  obtain ⟨g', _, hb, hl, hc⟩ := engineBlock_run N s hfit hI hr h0 h1
  have hkeep : ∀ i, i < N * N →
      (s.grid.getD i EMPTY = OBSTACLE ∨ s.grid.getD i EMPTY = START ∨
        s.grid.getD i EMPTY = END) →
      g'.getD i EMPTY = s.grid.getD i EMPTY := by
    intro i hi h
    rcases hc i hi with ⟨c1, _⟩ | ⟨_, _, _, c4⟩
    · rw [c1]
      rcases h with h | h | h <;> rw [h] <;> rfl
    · exfalso
      rcases h with h | h | h <;> rw [h] at c4 <;> cases c4
  have hwf := inv_wf N s hI h0 h1
  refine ⟨_, hb, rfl, rfl, rfl, by show g'.length = _; rw [hl, hI.2.1], hkeep, ?_, ?_, ?_⟩
  · intro i hi hne
    show s.grid.getD i EMPTY = EMPTY ∨ _
    have hk := hkeep i hi
    change g'.getD i EMPTY ≠ s.grid.getD i EMPTY at hne
    cases hcell : s.grid.getD i EMPTY with
    | EMPTY => exact Or.inl rfl
    | VISITED => exact Or.inr (Or.inl rfl)
    | PATH => exact Or.inr (Or.inr rfl)
    | OBSTACLE => exact absurd (hk (Or.inl hcell)) hne
    | START => exact absurd (hk (Or.inr (Or.inl hcell))) hne
    | END => exact absurd (hk (Or.inr (Or.inr hcell))) hne
  · show g'.getD s.startIdx.toNat EMPTY = START
    have h := (hwf.2.2.2.2.1 _ hwf.2.1).mpr rfl
    rw [hkeep _ hwf.2.1 (Or.inr (Or.inl h))]
    exact h
  · show g'.getD s.endIdx.toNat EMPTY = END
    have h := (hwf.2.2.2.2.2 _ hwf.2.2.1).mpr rfl
    rw [hkeep _ hwf.2.2.1 (Or.inr (Or.inr h))]
    exact h

/-- C8 at the session on the 5×5 grid. -/
theorem engine_run_frame_witness :
    ∃ s', engineBlock session5 = some s' ∧ s'.startIdx = session5.startIdx ∧
      s'.endIdx = session5.endIdx ∧ s'.gridSize = session5.gridSize ∧
      s'.grid.length = session5.grid.length ∧
      (∀ i, i < 5 * 5 →
        (session5.grid.getD i EMPTY = OBSTACLE ∨ session5.grid.getD i EMPTY = START ∨
          session5.grid.getD i EMPTY = END) →
        s'.grid.getD i EMPTY = session5.grid.getD i EMPTY) ∧
      (∀ i, i < 5 * 5 → s'.grid.getD i EMPTY ≠ session5.grid.getD i EMPTY →
        (session5.grid.getD i EMPTY = EMPTY ∨ session5.grid.getD i EMPTY = VISITED ∨
          session5.grid.getD i EMPTY = PATH)) ∧
      s'.grid.getD session5.startIdx.toNat EMPTY = START ∧
      s'.grid.getD session5.endIdx.toNat EMPTY = END :=
  engine_run_frame 5 session5 (by decide) (by decide) (by decide) (by decide) (by decide)

/-- C9: in every state, a click in End mode at `startIdx`, a click in Start
mode at `endIdx`, and a click in Obstacle mode at `startIdx` or at `endIdx`
each return the state unchanged. -/
theorem overlap_click_is_noop (s : AppState) :
    click { s with mode := MODE_END } s.startIdx = { s with mode := MODE_END } ∧
    click { s with mode := MODE_START } s.endIdx = { s with mode := MODE_START } ∧
    click { s with mode := MODE_OBSTACLE } s.startIdx = { s with mode := MODE_OBSTACLE } ∧
    click { s with mode := MODE_OBSTACLE } s.endIdx = { s with mode := MODE_OBSTACLE } := by
  refine ⟨?_, ?_, ?_, ?_⟩ <;> simp [click]

/-- C10: on `N * N` cells with in-range Start and End, the frontier loop
returns within `N * N + 1` tests of its condition and so does the whole run; no
node is pushed twice; no extracted entry is skipped as stale; at most `N * N`
entries are extracted; `prev` leads from every node with a distance other than
Start to a node whose distance is one less; and the backward walk stops at
Start after exactly `dist[End]` steps when End has a distance, and at End after
no step otherwise. -/
theorem engine_terminates (N : Nat) (g : List CellState) (st en : Nat)
    (hfit : N * N ≤ INF) (hlen : g.length = N * N) (hst : st < N * N) (hen : en < N * N) :
    ∃ s g', search N g st en = some s ∧ engine N g st en = some g' ∧
      s.pushed.Nodup ∧ (∀ u, Event.stale u ∉ s.trace) ∧ s.trace.length ≤ N * N ∧
      (∀ v, v < N * N → v ≠ st → s.dist.getD v INF ≠ INF →
        ∃ u, u < N * N ∧ s.prev.getD v (-1) = (u : Int) ∧ s.dist.getD u INF ≠ INF ∧
          s.dist.getD v INF = s.dist.getD u INF + 1) ∧
      (s.dist.getD en INF ≠ INF →
        ∃ gr, walkBack s.prev (st : Int) (s.dist.getD en INF + 1) (en : Int) s.grid =
            some ((st : Int), gr) ∧
          walkBack s.prev (st : Int) (s.dist.getD en INF) (en : Int) s.grid = none) ∧
      (s.dist.getD en INF = INF →
        walkBack s.prev (st : Int) 1 (en : Int) s.grid = some ((en : Int), s.grid)) := by
  obtain ⟨s, L, g', hs, hI, _, heng, _, _, _⟩ := engine_spec N g st en hfit hlen hst hen
  refine ⟨s, g', hs, heng, hI.pushed_nodup, ?_, ?_, ?_, ?_, ?_⟩
  · intro u hu
    rcases hI.trace_ok _ hu with h | ⟨_, h, _, _⟩ <;> cases h
  · have h1 := hI.measure
    have h2 := hI.cnt
    omega
  · intro v hv hvs hD
    obtain ⟨u, a1, a2, _, a4, a5, _, _⟩ := hI.tree v hv hvs hD
    exact ⟨u, a1, a2, a4, a5⟩
  · intro hD
    obtain ⟨_, gr, h1, h2, _⟩ :=
      walkBack_spec N (clearTransient g) st en en L s hI (s.dist.getD en INF) en s.grid hen rfl hD
        hI.glen
    exact ⟨gr, h1, h2⟩
  · intro hD
    exact walkBack_stop _ _ _ _ _ (hI.fresh en hen hD)

/-- C10 at the 3×3 grid whose middle row is a wall. -/
theorem engine_terminates_witness :
    ∃ s g', search 3 gridWall 0 8 = some s ∧ engine 3 gridWall 0 8 = some g' ∧
      s.pushed.Nodup ∧ (∀ u, Event.stale u ∉ s.trace) ∧ s.trace.length ≤ 3 * 3 ∧
      (∀ v, v < 3 * 3 → v ≠ 0 → s.dist.getD v INF ≠ INF →
        ∃ u : Nat, u < 3 * 3 ∧ s.prev.getD v (-1) = (u : Int) ∧ s.dist.getD u INF ≠ INF ∧
          s.dist.getD v INF = s.dist.getD u INF + 1) ∧
      (s.dist.getD 8 INF ≠ INF →
        ∃ gr, walkBack s.prev ((0 : Nat) : Int) (s.dist.getD 8 INF + 1) ((8 : Nat) : Int) s.grid =
            some (((0 : Nat) : Int), gr) ∧
          walkBack s.prev ((0 : Nat) : Int) (s.dist.getD 8 INF) ((8 : Nat) : Int) s.grid = none) ∧
      (s.dist.getD 8 INF = INF →
        walkBack s.prev ((0 : Nat) : Int) 1 ((8 : Nat) : Int) s.grid =
          some (((8 : Nat) : Int), s.grid)) :=
  engine_terminates 3 gridWall 0 8 (by decide) (by decide) (by decide) (by decide)

end ShortestPathFinder
